import Mathlib

/-!
Verification of the spatial addressing model, tile-map storage/generation and
entity kinematics of the handmade_ferris repository.

The Rust sources are shallowly embedded:
* `u32`/`u64`/`usize` arithmetic becomes `Nat` with explicit `% 2^32`/`% 2^64`
  wherever the machine type can wrap;
* `f32` (the `Meters` newtype) is modelled by `ℚ`; `f32::round` (round half
  away from zero) and `f32::sqrt` are the only nontrivial float operations the
  embedded code uses.  Rounding is `rust_round` below; `sqrt` is passed as an
  explicit function parameter wherever the source calls it;
* panics (`assert!`, `panic!`, slice-bound failures) become `Option`/`Except`
  failures;
* the registry's raw-pointer arena is modelled by an association list in
  insertion order, which matches the linear scan over `tile_map_indexes`.
-/

namespace HandmadeFerris

/-- Number of columns in a tile map (`TILE_MAP_COLUMNS` in game_state). -/
def TILE_MAP_COLUMNS : Nat := 16

/-- Number of rows in a tile map (`TILE_MAP_ROWS` in game_state). -/
def TILE_MAP_ROWS : Nat := 9

/-- Bits to shift an absolute tile position to get the chunk (`CHUNK_SHIFT`). -/
def CHUNK_SHIFT : Nat := 8

/-- Mask extracting the offset within a chunk (`CHUNK_MASK`). -/
def CHUNK_MASK : Nat := 0xff

/-- Modulus of the `u32` machine type. -/
def U32_MOD : Nat := 2 ^ 32

/-- Modulus of the `u64` machine type. -/
def U64_MOD : Nat := 2 ^ 64

/-- Maximum number of chunks (`MAX_NUM_CHUNKS = (u32::MAX >> CHUNK_SHIFT)`). -/
def MAX_NUM_CHUNKS : Nat := (2 ^ 32 - 1) >>> CHUNK_SHIFT

/-- Decoded form of an absolute tile: `Chunk { chunk_id, offset }`. -/
structure Chunk where
  chunk_id : Nat
  offset : Nat
deriving DecidableEq, Repr

/-- `AbsoluteTile::from_chunk_offset`: pack `(chunk << CHUNK_SHIFT) | (offset & CHUNK_MASK)`
into the `u32` payload.  The `u32` shift wraps, hence the `% U32_MOD`. -/
def from_chunk_offset (chunk offset : Nat) : Nat :=
  ((chunk <<< CHUNK_SHIFT) % U32_MOD) ||| (offset &&& CHUNK_MASK)

/-- `AbsoluteTile::into_chunk`: unpack the payload into `(chunk_id, offset)`. -/
def into_chunk (t : Nat) : Chunk :=
  { chunk_id := t >>> CHUNK_SHIFT, offset := t &&& CHUNK_MASK }

/-- `impl From<Chunk> for AbsoluteTile`: re-pack a decoded chunk. -/
def chunk_to_tile (c : Chunk) : Nat :=
  ((c.chunk_id <<< CHUNK_SHIFT) % U32_MOD) ||| (c.offset &&& CHUNK_MASK)

/-- `AbsoluteTile::adjust`.  `val = 0` is a no-op; `|val| > 1` hits the
`assert!` (modelled as `none`); otherwise the offset moves one step, rolling
into the neighbouring chunk and wrapping the chunk id at the world edge. -/
def adjust (MAX_CHUNK_ID MAX_OFFSET : Nat) (t : Nat) (val : Int) : Option Nat :=
  if val = 0 then some t
  else if val = 1 ∨ val = -1 then
    let c := into_chunk t
    if val = 1 then
      if c.offset + 1 = MAX_OFFSET then
        let cid := c.chunk_id + 1
        let cid := if cid = MAX_CHUNK_ID then 0 else cid
        some (chunk_to_tile { chunk_id := cid, offset := 0 })
      else
        some (chunk_to_tile { chunk_id := c.chunk_id, offset := c.offset + 1 })
    else
      if c.offset = 0 then
        let cid := if c.chunk_id = 0 then MAX_CHUNK_ID - 1 else c.chunk_id - 1
        some (chunk_to_tile { chunk_id := cid, offset := MAX_OFFSET - 1 })
      else
        some (chunk_to_tile { chunk_id := c.chunk_id, offset := c.offset - 1 })
  else none

/-- Two-dimensional vector of rationals, modelling `Vector2<Meters>`. -/
structure Vec2 where
  x : ℚ
  y : ℚ
deriving DecidableEq, Repr

/-- `Vector2::dot`. -/
def Vec2.dot (a b : Vec2) : ℚ := a.x * b.x + a.y * b.y

/-- `Vector2::len_squared`. -/
def Vec2.len_squared (a : Vec2) : ℚ := a.dot a

/-- Componentwise addition of `Vector2`. -/
def Vec2.add (a b : Vec2) : Vec2 := { x := a.x + b.x, y := a.y + b.y }

/-- Componentwise subtraction of `Vector2`. -/
def Vec2.sub (a b : Vec2) : Vec2 := { x := a.x - b.x, y := a.y - b.y }

/-- Scaling of `Vector2` by a scalar (`Mul<T> for Vector2<T>`). -/
def Vec2.smul (a : Vec2) (s : ℚ) : Vec2 := { x := a.x * s, y := a.y * s }

/-- Negation of `Vector2`. -/
def Vec2.neg (a : Vec2) : Vec2 := { x := -a.x, y := -a.y }

/-- `f32::round` on the rationals: round half away from zero. -/
def rust_round (q : ℚ) : ℤ :=
  if q < 0 then -(⌊-q + 1/2⌋) else ⌊q + 1/2⌋

/-- `WorldPosition`: packed x and y tiles, floor, and the sub-tile offset. -/
structure WorldPosition where
  tile_map_x : Nat
  tile_map_y : Nat
  z : Nat
  tile_rel : Vec2
deriving DecidableEq, Repr

/-- `WorldPosition::canonicalize`: assert `tile_rel ∈ [-1.5, 1.5]` on both
axes, move the rounded whole-tile step of each axis into the corresponding
`AbsoluteTile`, subtract it from `tile_rel`, and finally panic (here: `none`)
unless both residuals are strictly inside `(-1, 1)`. -/
def canonicalize (p : WorldPosition) : Option WorldPosition :=
  if ¬(-(3/2 : ℚ) ≤ p.tile_rel.x ∧ p.tile_rel.x ≤ 3/2) then none
  else if ¬(-(3/2 : ℚ) ≤ p.tile_rel.y ∧ p.tile_rel.y ≤ 3/2) then none
  else
    (adjust MAX_NUM_CHUNKS TILE_MAP_COLUMNS p.tile_map_x (rust_round p.tile_rel.x)).bind
      fun tx =>
    (adjust MAX_NUM_CHUNKS TILE_MAP_ROWS p.tile_map_y (rust_round p.tile_rel.y)).bind
      fun ty =>
    let rx : ℚ := p.tile_rel.x - (rust_round p.tile_rel.x : ℤ)
    let ry : ℚ := p.tile_rel.y - (rust_round p.tile_rel.y : ℤ)
    if rx ≤ -1 ∨ 1 ≤ rx then none
    else if ry ≤ -1 ∨ 1 ≤ ry then none
    else some { tile_map_x := tx, tile_map_y := ty, z := p.z, tile_rel := { x := rx, y := ry } }

/-! ### Tile maps (game/src/lib.rs) -/

/-- `TileType`: kinds of tiles inhabiting the world. -/
inductive TileType where
  | Empty
  | Wall
  | Ladder
deriving DecidableEq, Repr

/-- `TileMap` storage: `data r c` is the tile at storage row `r`, column `c`
(the fixed `[[TileType; WIDTH]; HEIGHT]` array as a total function). -/
structure TileMap where
  data : Nat → Nat → TileType

/-- Bounds failure of a tile lookup or store: the panic message names the
failing storage index and the limit of the corresponding axis. -/
inductive BoundsErr where
  | height (idx limit : Nat)
  | width (idx limit : Nat)
deriving DecidableEq, Repr

instance {ε α : Type} [DecidableEq ε] [DecidableEq α] : DecidableEq (Except ε α) := fun a b =>
  match a, b with
  | Except.ok x, Except.ok y =>
    if h : x = y then isTrue (congrArg Except.ok h)
    else isFalse (fun hh => h (Except.ok.inj hh))
  | Except.error x, Except.error y =>
    if h : x = y then isTrue (congrArg Except.error h)
    else isFalse (fun hh => h (Except.error.inj hh))
  | Except.ok _, Except.error _ => isFalse (fun hh => Except.noConfusion hh)
  | Except.error _, Except.ok _ => isFalse (fun hh => Except.noConfusion hh)

/-- Storage row for user coordinate `y`: the source computes
`HEIGHT - 1 - y` in `usize`, which wraps modulo `2^64` when `y ≥ HEIGHT`. -/
def storage_row (H y : Nat) : Nat := (U64_MOD + H - 1 - y) % U64_MOD

/-- `TileMap::get_tile_at`: flip the row (`HEIGHT - 1 - y` in wrapping
`usize`), then index row-first; a failed `get` panics with the index and the
exceeded limit. -/
def get_tile_at (H W : Nat) (m : TileMap) (x y : Nat) : Except BoundsErr TileType :=
  let yS := storage_row H y
  if yS < H then
    if x < W then Except.ok (m.data yS x)
    else Except.error (BoundsErr.width x W)
  else Except.error (BoundsErr.height yS H)

/-- `TileMap::set_tile_at`: same addressing as `get_tile_at`, storing `v`. -/
def set_tile_at (H W : Nat) (m : TileMap) (x y : Nat) (v : TileType) :
    Except BoundsErr TileMap :=
  let yS := storage_row H y
  if yS < H then
    if x < W then
      Except.ok { data := fun r c => if r = yS ∧ c = x then v else m.data r c }
    else Except.error (BoundsErr.width x W)
  else Except.error (BoundsErr.height yS H)

/-! ### Random source (game_state/src/rng.rs)

`Rng::new` seeds the two states from a hardware timestamp; the embedding
therefore quantifies over the states.  `Rng::next` is embedded exactly. -/

/-- `Rng`: the two-word state of the `RandRomu` generator. -/
structure Rng where
  xstate : Nat
  ystate : Nat
deriving DecidableEq, Repr

/-- `u64::rotate_left(27)`. -/
def rotl27 (v : Nat) : Nat := ((v <<< 27) % U64_MOD) ||| (v >>> 37)

/-- `Rng::next`: return the old x state; the new x state is
`15241094284759029579 * ystate` and the new y state is
`(ystate - old_x).rotate_left(27)`, all in wrapping `u64`. -/
def Rng.next (r : Rng) : Nat × Rng :=
  let xp := r.xstate % U64_MOD
  let x1 := (15241094284759029579 * (r.ystate % U64_MOD)) % U64_MOD
  let y1 := rotl27 ((r.ystate % U64_MOD + (U64_MOD - xp)) % U64_MOD)
  (xp, { xstate := x1, ystate := y1 })

/-! ### World registry (game/src/lib.rs) -/

/-- Key of a registered tile map: chunk position and floor, the
`(Vector2<u32>, u8)` stored in `tile_map_indexes`. -/
abbrev TileMapKey := (Nat × Nat) × Nat

/-- `PREALLOC_TILE_MAPS`: capacity of the registry. -/
def PREALLOC_TILE_MAPS : Nat := 16

/-- `World`: allocated tile maps in allocation order.  The parallel arrays
`tile_maps`/`tile_map_indexes` with `next_tile_map_index` become one list in
insertion order; the linear scan of `get_tilemap_at` is a first-match lookup. -/
structure World where
  tile_maps : List (TileMapKey × TileMap)

/-- Linear scan of the registry slots, first match wins. -/
def regLookup : List (TileMapKey × TileMap) → TileMapKey → Option TileMap
  | [], _ => none
  | e :: rest, k => if e.1 = k then some e.2 else regLookup rest k

/-- Write back through the `&mut` returned by the registry scan: replace the
value stored under key `k`. -/
def regUpdate : List (TileMapKey × TileMap) → TileMapKey → TileMap →
    List (TileMapKey × TileMap)
  | [], _, _ => []
  | e :: rest, k, m => if e.1 = k then (k, m) :: regUpdate rest k m
      else e :: regUpdate rest k m

/-- A tile map fresh out of the arena.  The arena's backing pages are zeroed
and `TileType::Empty` is the zero (default) discriminant, so a new map reads
as all-Empty, matching `TileMap::default`. -/
def empty_tile_map : TileMap := { data := fun _ _ => TileType.Empty }

/-- `World::alloc_tilemap_at`: fails (`assert!`) when the 16 slots are
exhausted, otherwise registers key `k` with a fresh map in the next slot. -/
def alloc_tilemap_at (w : World) (k : TileMapKey) : Option World :=
  if w.tile_maps.length < PREALLOC_TILE_MAPS then
    some { tile_maps := w.tile_maps ++ [(k, empty_tile_map)] }
  else none

/-! ### Procedural generation (`World::init_tile_map`) -/

/-- Mutable state of the generation loop: the map being filled, the
`ladder_set` flag, the recorded `other_floor` cell, and the rng. -/
structure GenState where
  map : TileMap
  ladder_set : Bool
  other_floor : Option (Nat × Nat)
  rng : Rng

/-- One iteration of `init_tile_map`'s nested loop at cell `(x, y)`:
top/bottom border rows and left/right border columns get Wall with a centered
3-cell Empty door; otherwise, while no ladder has been placed, a draw with
`rng.next() % 64 == 0` places the ladder (and `continue`s); otherwise a draw
with `rng.next() % 16 == 0` places a Wall. -/
def gen_cell (st : GenState) (c : Nat × Nat) : Option GenState :=
  let x := c.1
  let y := c.2
  if y = 0 ∨ y = TILE_MAP_ROWS - 1 then
    let mid := TILE_MAP_COLUMNS / 2
    let v := if mid - 1 ≤ x ∧ x ≤ mid + 1 then TileType.Empty else TileType.Wall
    match set_tile_at TILE_MAP_ROWS TILE_MAP_COLUMNS st.map x y v with
    | Except.ok m => some { st with map := m }
    | Except.error _ => none
  else if x = 0 ∨ x = TILE_MAP_COLUMNS - 1 then
    let mid := TILE_MAP_ROWS / 2
    let v := if mid - 1 ≤ y ∧ y ≤ mid + 1 then TileType.Empty else TileType.Wall
    match set_tile_at TILE_MAP_ROWS TILE_MAP_COLUMNS st.map x y v with
    | Except.ok m => some { st with map := m }
    | Except.error _ => none
  else if st.ladder_set = false then
    let d1 := st.rng.next
    if d1.1 % 64 = 0 then
      match set_tile_at TILE_MAP_ROWS TILE_MAP_COLUMNS st.map x y TileType.Ladder with
      | Except.ok m =>
        some { map := m, ladder_set := true, other_floor := some (x, y), rng := d1.2 }
      | Except.error _ => none
    else
      let d2 := d1.2.next
      if d2.1 % 16 = 0 then
        match set_tile_at TILE_MAP_ROWS TILE_MAP_COLUMNS st.map x y TileType.Wall with
        | Except.ok m => some { st with map := m, rng := d2.2 }
        | Except.error _ => none
      else some { st with rng := d2.2 }
  else
    let d2 := st.rng.next
    if d2.1 % 16 = 0 then
      match set_tile_at TILE_MAP_ROWS TILE_MAP_COLUMNS st.map x y TileType.Wall with
      | Except.ok m => some { st with map := m, rng := d2.2 }
      | Except.error _ => none
    else some { st with rng := d2.2 }

/-- Cells of the generation loop: `for y in 0..TILE_MAP_ROWS { for x in
0..TILE_MAP_COLUMNS { ... } }`, row-major. -/
def gen_cells : List (Nat × Nat) :=
  (List.range TILE_MAP_ROWS).flatMap fun y =>
    (List.range TILE_MAP_COLUMNS).map fun x => (x, y)

/-- The whole generation loop run over a fresh map. -/
def gen_map (rng : Rng) : Option GenState :=
  gen_cells.foldlM gen_cell
    { map := empty_tile_map, ladder_set := false, other_floor := none, rng := rng }

/-- `World::get_tilemap_at`: linear-scan the registered keys; on a hit return
the map, on a miss allocate and generate (the body of `init_tile_map`,
inlined here so that the recursion is structural on `fuel`).  `fuel` bounds
the recursion of the ladder-pairing; a depth of 2 always suffices for floors
0/1 because the in-progress map is registered before generation. -/
def get_tilemap_at : Nat → World → Rng → (Nat × Nat) → Nat → Option (World × Rng)
  | 0, w, rng, pos, z =>
    match regLookup w.tile_maps (pos, z) with
    | some _ => some (w, rng)
    | none => none
  | fuel' + 1, w, rng, pos, z =>
    match regLookup w.tile_maps (pos, z) with
    | some _ => some (w, rng)
    | none =>
        (alloc_tilemap_at w (pos, z)).bind fun w1 =>
        (gen_map rng).bind fun gst =>
        let w2 : World := { tile_maps := regUpdate w1.tile_maps (pos, z) gst.map }
        match gst.other_floor with
        | none => get_tilemap_at fuel' w2 gst.rng pos z
        | some xy =>
          let other_z := (z + 1) % 2
          (get_tilemap_at fuel' w2 gst.rng pos other_z).bind fun wr3 =>
          (regLookup wr3.1.tile_maps (pos, other_z)).bind fun m1 =>
          (set_tile_at TILE_MAP_ROWS TILE_MAP_COLUMNS m1 xy.1 xy.2
            TileType.Ladder).toOption.bind fun m1' =>
          let w4 : World := { tile_maps := regUpdate wr3.1.tile_maps (pos, other_z) m1' }
          get_tilemap_at fuel' w4 wr3.2 pos z

/-- `World::init_tile_map`: allocate the slot, run the generation loop, and
if a ladder was placed ensure the map of the adjacent floor `(z+1) % 2`
exists (recursively, through `get_tilemap_at`) and force-set the same cell
there to Ladder; finally re-fetch the map for `(pos, z)`.  This is the
miss branch of `get_tilemap_at` (definitionally, see `get_tilemap_at_miss`). -/
def init_tile_map (fuel : Nat) (w : World) (rng : Rng) (pos : Nat × Nat) (z : Nat) :
    Option (World × Rng) :=
  (alloc_tilemap_at w (pos, z)).bind fun w1 =>
  (gen_map rng).bind fun gst =>
  let w2 : World := { tile_maps := regUpdate w1.tile_maps (pos, z) gst.map }
  match gst.other_floor with
  | none => get_tilemap_at fuel w2 gst.rng pos z
  | some xy =>
    let other_z := (z + 1) % 2
    (get_tilemap_at fuel w2 gst.rng pos other_z).bind fun wr3 =>
    (regLookup wr3.1.tile_maps (pos, other_z)).bind fun m1 =>
    (set_tile_at TILE_MAP_ROWS TILE_MAP_COLUMNS m1 xy.1 xy.2
      TileType.Ladder).toOption.bind fun m1' =>
    let w4 : World := { tile_maps := regUpdate wr3.1.tile_maps (pos, other_z) m1' }
    get_tilemap_at fuel w4 wr3.2 pos z

/-! ### Ladder cells -/

/-- The cell `(x, y)` of map `m` holds a Ladder. -/
def ladder_at (m : TileMap) (x y : Nat) : Prop :=
  get_tile_at TILE_MAP_ROWS TILE_MAP_COLUMNS m x y = Except.ok TileType.Ladder

instance (m : TileMap) (x y : Nat) : Decidable (ladder_at m x y) := by
  unfold ladder_at
  infer_instance

/-! ### The generation-loop invariant -/

/-- Invariant carried through the generation loop: the map's ladder cells are
exactly the recorded `other_floor` cell, `ladder_set` mirrors the record, and
the recorded cell is interior. -/
def GenInv (st : GenState) : Prop :=
  (∀ x y, x < TILE_MAP_COLUMNS → y < TILE_MAP_ROWS →
    (ladder_at st.map x y ↔ st.other_floor = some (x, y)))
  ∧ st.ladder_set = st.other_floor.isSome
  ∧ (∀ p, st.other_floor = some p →
      0 < p.1 ∧ p.1 < TILE_MAP_COLUMNS - 1 ∧ 0 < p.2 ∧ p.2 < TILE_MAP_ROWS - 1)

/-! ### World-level ladder invariants -/

/-- The map registered at `(pos, z)` exists and has a Ladder at `(x, y)`. -/
def LadderW (w : World) (pos : Nat × Nat) (z x y : Nat) : Prop :=
  ∃ m, regLookup w.tile_maps (pos, z) = some m ∧ ladder_at m x y

/-- Ladder pairing symmetry: floors 0 and 1 of every chunk have the same
ladder cells (existence of the map included). -/
def LadderSym (w : World) : Prop :=
  ∀ pos x y, x < TILE_MAP_COLUMNS → y < TILE_MAP_ROWS →
    (LadderW w pos 0 x y ↔ LadderW w pos 1 x y)

/-- Every registered map has at most two ladder cells. -/
def AtMostTwo (w : World) : Prop :=
  ∀ k m, regLookup w.tile_maps k = some m →
    ∃ p q, ∀ x y, x < TILE_MAP_COLUMNS → y < TILE_MAP_ROWS →
      ladder_at m x y → (x, y) = p ∨ (x, y) = q

/-! ### Traces of registry calls -/

/-- Run a sequence of `get_tilemap_at` calls (each with recursion budget 2,
which always suffices for floors 0/1), threading the world and the rng. -/
def run_calls (calls : List TileMapKey) (w : World) (rng : Rng) : Option (World × Rng) :=
  calls.foldlM (fun wr k => get_tilemap_at 2 wr.1 wr.2 k.1 k.2) (w, rng)

/-- The floor-0 map of chunk (0, 0) after one `get_tilemap_at` call from the
empty registry with rng state `(64, 2)` (such states are reachable because
`Rng::new` seeds from a hardware timestamp). -/
def two_ladder_demo : Option TileMap :=
  (get_tilemap_at 2 { tile_maps := [] } { xstate := 64, ystate := 2 } (0, 0) 0).bind
    fun wr => regLookup wr.1.tile_maps ((0, 0), 0)

/-! ### Entity kinematics (`move_entity` in game/src/lib.rs)

The debug drawing in `move_entity` (the tile-rectangle loop and the
`draw_rectangle` calls) only writes to the framebuffer and is omitted;
rendering is outside the core.  `f32::sqrt` is passed in as `sqrtFn`. -/

/-- An entity as `move_entity` sees it: position and velocity. -/
structure Entity where
  position : WorldPosition
  velocity : Vec2
deriving DecidableEq, Repr

/-- The acceleration pipeline of `move_entity`: cap the diagonal at length 1
(`accel /= sqrt(len²)` when `len² > 1`), scale by the player speed 18, then
add the pseudo-friction `-velocity * 1.0`. -/
def integrate_accel (sqrtFn : ℚ → ℚ) (accel velocity : Vec2) : Vec2 :=
  let len_accel := accel.len_squared
  let accel := if 1 < len_accel then accel.smul (1 / sqrtFn len_accel) else accel
  let accel := accel.smul 18
  accel.add ((velocity.neg).smul 1)

/-- The tentative canonicalized position:
`tile_rel += 0.5*a*dt² + v*dt`, then `canonicalize`. -/
def tentative_position (sqrtFn : ℚ → ℚ) (delta_t : ℚ) (entity : Entity) (accel0 : Vec2) :
    Option WorldPosition :=
  let acceleration := integrate_accel sqrtFn accel0 entity.velocity
  let move_delta := ((acceleration.smul (1/2)).smul (delta_t * delta_t)).add
    (entity.velocity.smul delta_t)
  canonicalize { tile_map_x := entity.position.tile_map_x,
                 tile_map_y := entity.position.tile_map_y,
                 z := entity.position.z,
                 tile_rel := entity.position.tile_rel.add move_delta }

/-- The integrated velocity `a*dt + v`, committed before the collision test. -/
def new_velocity (sqrtFn : ℚ → ℚ) (delta_t : ℚ) (entity : Entity) (accel0 : Vec2) : Vec2 :=
  ((integrate_accel sqrtFn accel0 entity.velocity).smul delta_t).add entity.velocity

/-- Resolve the destination tile of the canonicalized position through the
World registry (`get_tilemap_at` + `TileMap::get_tile_at` on the offsets). -/
def dest_tile (w : World) (rng : Rng) (np : WorldPosition) :
    Option (World × Rng × TileType) :=
  let cx := (into_chunk np.tile_map_x).chunk_id
  let cy := (into_chunk np.tile_map_y).chunk_id
  let ox := (into_chunk np.tile_map_x).offset
  let oy := (into_chunk np.tile_map_y).offset
  (get_tilemap_at 2 w rng (cx, cy) np.z).bind fun wr =>
  (regLookup wr.1.tile_maps ((cx, cy), np.z)).bind fun m =>
  (get_tile_at TILE_MAP_ROWS TILE_MAP_COLUMNS m ox oy).toOption.map fun t =>
    (wr.1, wr.2, t)

/-- The wall-normal "reflection" vector: the sign of the offset change on
each axis, the last of the four tests winning (as in the source's sequence of
`if`s). -/
def reflection_of (old_player np : WorldPosition) : Vec2 :=
  let r : Vec2 := { x := 0, y := 0 }
  let r := if (into_chunk old_player.tile_map_x).offset <
      (into_chunk np.tile_map_x).offset then ({ x := 1, y := 0 } : Vec2) else r
  let r := if (into_chunk np.tile_map_x).offset <
      (into_chunk old_player.tile_map_x).offset then ({ x := -1, y := 0 } : Vec2) else r
  let r := if (into_chunk np.tile_map_y).offset <
      (into_chunk old_player.tile_map_y).offset then ({ x := 0, y := 1 } : Vec2) else r
  let r := if (into_chunk old_player.tile_map_y).offset <
      (into_chunk np.tile_map_y).offset then ({ x := 0, y := -1 } : Vec2) else r
  r

/-- The velocity update on a blocked move:
`v' = v - reflect * dot(v, reflect) * reaction_const` (Grind: 1). -/
def collision_response (v reflection : Vec2) (reaction_const : ℚ) : Vec2 :=
  v.sub ((reflection.smul (v.dot reflection)).smul reaction_const)

/-- `move_entity`: integrate, canonicalize, resolve the destination tile;
Wall rejects the move (position kept, velocity reflected), Ladder on a tile
change toggles the floor, otherwise the new position is committed. -/
def move_entity (sqrtFn : ℚ → ℚ) (delta_t : ℚ) (world : World) (rng : Rng)
    (entity : Entity) (acceleration : Vec2) : Option (Entity × World × Rng) :=
  let old_player := entity.position
  let v1 := new_velocity sqrtFn delta_t entity acceleration
  (tentative_position sqrtFn delta_t entity acceleration).bind fun np =>
  (dest_tile world rng np).bind fun wrt =>
  let next_tile := wrt.2.2
  let np := if next_tile = TileType.Ladder ∧ (np.tile_map_x ≠ old_player.tile_map_x
      ∨ np.tile_map_y ≠ old_player.tile_map_y)
    then { tile_map_x := np.tile_map_x, tile_map_y := np.tile_map_y,
           z := (np.z + 1) % 2, tile_rel := np.tile_rel }
    else np
  if next_tile = TileType.Wall then
    some ({ position := old_player,
            velocity := collision_response v1 (reflection_of old_player np) 1 },
      wrt.1, wrt.2.1)
  else
    some ({ position := np, velocity := v1 }, wrt.1, wrt.2.1)

/-! ### Arithmetic facts about the packed representation -/

lemma lor_div_pow (a b n : Nat) : (a ||| b) / 2 ^ n = a / 2 ^ n ||| b / 2 ^ n := by
  induction n with
  | zero => simp
  | succ n ih =>
    rw [pow_succ, ← Nat.div_div_eq_div_mul, ← Nat.div_div_eq_div_mul,
      ← Nat.div_div_eq_div_mul, ih, Nat.or_div_two]

lemma and_255_eq_mod (x : Nat) : x &&& 255 = x % 2 ^ 8 := by
  have h : (255 : Nat) = 2 ^ 8 - 1 := rfl
  rw [h, Nat.and_pow_two_sub_one_eq_mod]

lemma into_chunk_pack (c o : Nat) (hc : c < 2 ^ 24) (ho : o < 256) :
    into_chunk (chunk_to_tile { chunk_id := c, offset := o }) =
      { chunk_id := c, offset := o } := by
  have hsh : (c <<< CHUNK_SHIFT) = c * 2 ^ 8 := Nat.shiftLeft_eq c 8
  have hlt : c * 2 ^ 8 < 2 ^ 32 := by
    have h8 : (0:Nat) < 2 ^ 8 := by norm_num
    calc c * 2 ^ 8 < 2 ^ 24 * 2 ^ 8 := by exact (Nat.mul_lt_mul_right h8).mpr hc
      _ = 2 ^ 32 := by norm_num
  have hmod : (c * 2 ^ 8) % U32_MOD = c * 2 ^ 8 := Nat.mod_eq_of_lt hlt
  have hb : o &&& CHUNK_MASK = o := by
    show o &&& 255 = o
    rw [and_255_eq_mod]
    exact Nat.mod_eq_of_lt ho
  unfold into_chunk chunk_to_tile
  rw [hsh, hmod, hb]
  congr 1
  · -- chunk component
    show (c * 2 ^ 8 ||| o) >>> CHUNK_SHIFT = c
    rw [show CHUNK_SHIFT = 8 from rfl, Nat.shiftRight_eq_div_pow, lor_div_pow,
      Nat.mul_div_cancel _ (by norm_num : 0 < 2 ^ 8),
      Nat.div_eq_of_lt (by omega : o < 2 ^ 8), Nat.or_zero]
  · -- offset component
    show (c * 2 ^ 8 ||| o) &&& CHUNK_MASK = o
    show (c * 2 ^ 8 ||| o) &&& 255 = o
    rw [Nat.and_distrib_right, and_255_eq_mod, and_255_eq_mod,
      Nat.mul_mod_left, Nat.zero_or]
    exact Nat.mod_eq_of_lt ho

lemma from_chunk_offset_eq_pack (c o : Nat) :
    from_chunk_offset c o = chunk_to_tile { chunk_id := c, offset := o } := rfl

lemma MAX_NUM_CHUNKS_lt : MAX_NUM_CHUNKS < 2 ^ 24 := by decide

lemma into_chunk_from (c o : Nat) (hc : c < 2 ^ 24) (ho : o < 256) :
    into_chunk (from_chunk_offset c o) = { chunk_id := c, offset := o } := by
  rw [from_chunk_offset_eq_pack]
  exact into_chunk_pack c o hc ho

/-- C3: for every chunk id below `MAX_NUM_CHUNKS` and offset below
`MAX_OFFSET` (both tile-map instantiations have `MAX_OFFSET ≤ 256`),
`from_chunk_offset` followed by `into_chunk` returns exactly the pair. -/
theorem round_trip_from_chunk_offset (MAX_OFFSET chunk offset : Nat)
    (hM : MAX_OFFSET ≤ 256) (hc : chunk < MAX_NUM_CHUNKS) (ho : offset < MAX_OFFSET) :
    into_chunk (from_chunk_offset chunk offset) =
      { chunk_id := chunk, offset := offset } := by
  exact into_chunk_from chunk offset (lt_trans hc MAX_NUM_CHUNKS_lt) (by omega)

/-- Witness for C3 at chunk 123, offset 7, `MAX_OFFSET = TILE_MAP_COLUMNS`. -/
theorem round_trip_from_chunk_offset_witness :
    TILE_MAP_COLUMNS ≤ 256 ∧ 123 < MAX_NUM_CHUNKS ∧ 7 < TILE_MAP_COLUMNS ∧
      into_chunk (from_chunk_offset 123 7) = { chunk_id := 123, offset := 7 } :=
  ⟨by decide, by decide, by decide,
    round_trip_from_chunk_offset TILE_MAP_COLUMNS 123 7 (by decide) (by decide) (by decide)⟩

/-- C8 counterexample: the stored offset is the input masked with
`CHUNK_MASK` (that is, modulo 256), not the input modulo `MAX_OFFSET`.  With
the x-axis instantiation `MAX_OFFSET = TILE_MAP_COLUMNS = 16`, the input
offset 16 is stored as 16, while 16 mod 16 is 0. -/
theorem from_chunk_offset_not_mod_max_offset :
    (into_chunk (from_chunk_offset 0 TILE_MAP_COLUMNS)).offset ≠
      TILE_MAP_COLUMNS % TILE_MAP_COLUMNS := by decide

/-- C8 (amended): for every chunk and offset, the stored offset equals the
input offset modulo `2 ^ CHUNK_SHIFT = 256` (the `offset & CHUNK_MASK` of the
source), not modulo `MAX_OFFSET`. -/
theorem from_chunk_offset_offset_mod (chunk offset : Nat) :
    (into_chunk (from_chunk_offset chunk offset)).offset = offset % 2 ^ CHUNK_SHIFT := by
  show (((chunk <<< CHUNK_SHIFT) % U32_MOD) ||| (offset &&& CHUNK_MASK)) &&& CHUNK_MASK
      = offset % 2 ^ CHUNK_SHIFT
  show (((chunk <<< CHUNK_SHIFT) % U32_MOD) ||| (offset &&& 255)) &&& 255
      = offset % 2 ^ CHUNK_SHIFT
  rw [Nat.and_distrib_right, and_255_eq_mod, and_255_eq_mod, and_255_eq_mod]
  have h1 : (chunk <<< CHUNK_SHIFT) % U32_MOD % 2 ^ 8 = 0 := by
    rw [Nat.shiftLeft_eq,
      Nat.mod_mod_of_dvd _ (show (2:Nat) ^ 8 ∣ U32_MOD from ⟨2 ^ 24, by norm_num [U32_MOD]⟩)]
    show chunk * 2 ^ 8 % 2 ^ 8 = 0
    exact Nat.mul_mod_left chunk (2 ^ 8)
  rw [h1, Nat.zero_or, Nat.mod_mod_of_dvd _ dvd_rfl]
  rfl

/-- Witness for the amended C8 at chunk 3, offset 300: the stored offset is
300 mod 256 = 44 (no hypotheses in the amended theorem, witness is direct). -/
theorem from_chunk_offset_offset_mod_witness :
    (into_chunk (from_chunk_offset 3 300)).offset = 300 % 2 ^ CHUNK_SHIFT :=
  from_chunk_offset_offset_mod 3 300

/-- C4: `adjust(+1)` at the last offset of a chunk rolls to offset 0 of the
next chunk, wrapping the chunk id modulo `MAX_CHUNK_ID`; `adjust(-1)` at
offset 0 of chunk 0 wraps to the last offset of chunk `MAX_CHUNK_ID - 1`; away
from the boundaries `adjust(±1)` changes only the offset by one. -/
theorem adjust_wraparound (MC MO : Nat) (hMC1 : 0 < MC) (hMC : MC ≤ MAX_NUM_CHUNKS)
    (hMO1 : 0 < MO) (hMO : MO ≤ 256) :
    (∀ cid, cid < MC →
      (adjust MC MO (from_chunk_offset cid (MO - 1)) 1).map into_chunk
        = some { chunk_id := (cid + 1) % MC, offset := 0 })
  ∧ (adjust MC MO (from_chunk_offset 0 0) (-1)).map into_chunk
        = some { chunk_id := MC - 1, offset := MO - 1 }
  ∧ (∀ cid off, cid < MC → off + 1 < MO →
      (adjust MC MO (from_chunk_offset cid off) 1).map into_chunk
        = some { chunk_id := cid, offset := off + 1 })
  ∧ (∀ cid off, cid < MC → 0 < off → off < MO →
      (adjust MC MO (from_chunk_offset cid off) (-1)).map into_chunk
        = some { chunk_id := cid, offset := off - 1 }) := by
  have h24 := MAX_NUM_CHUNKS_lt
  refine ⟨?_, ?_, ?_, ?_⟩
  · intro cid hcid
    have hdec := into_chunk_from cid (MO - 1) (by omega) (by omega)
    unfold adjust
    rw [if_neg (by decide), if_pos (Or.inl rfl), hdec, if_pos rfl,
      if_pos (by omega : MO - 1 + 1 = MO)]
    show Option.map into_chunk
        (some (chunk_to_tile { chunk_id := if cid + 1 = MC then 0 else cid + 1, offset := 0 }))
      = some { chunk_id := (cid + 1) % MC, offset := 0 }
    by_cases hwrap : cid + 1 = MC
    · rw [if_pos hwrap, Option.map_some', into_chunk_pack 0 0 (by norm_num) (by norm_num)]
      simp only [Option.some.injEq, Chunk.mk.injEq]
      refine ⟨?_, trivial⟩
      rw [hwrap, Nat.mod_self]
    · rw [if_neg hwrap, Option.map_some', into_chunk_pack (cid + 1) 0 (by omega) (by norm_num)]
      simp only [Option.some.injEq, Chunk.mk.injEq]
      refine ⟨?_, trivial⟩
      rw [Nat.mod_eq_of_lt (by omega)]
  · have hdec := into_chunk_from 0 0 (by norm_num) (by norm_num)
    unfold adjust
    rw [if_neg (by decide), if_pos (Or.inr rfl), hdec, if_neg (by decide), if_pos rfl,
      if_pos rfl, Option.map_some', into_chunk_pack (MC - 1) (MO - 1) (by omega) (by omega)]
  · intro cid off hcid hoff
    have hdec := into_chunk_from cid off (by omega) (by omega)
    unfold adjust
    rw [if_neg (by decide), if_pos (Or.inl rfl), hdec, if_pos rfl,
      if_neg (by omega : ¬off + 1 = MO), Option.map_some',
      into_chunk_pack cid (off + 1) (by omega) (by omega)]
  · intro cid off hcid hoff1 hoff2
    have hdec := into_chunk_from cid off (by omega) (by omega)
    unfold adjust
    rw [if_neg (by decide), if_pos (Or.inr rfl), hdec, if_neg (by decide),
      if_neg (by omega : ¬off = 0), Option.map_some',
      into_chunk_pack cid (off - 1) (by omega) (by omega)]

/-- Witness for C4 with the x-axis instantiation (`MAX_NUM_CHUNKS`,
`TILE_MAP_COLUMNS`), exercising the `adjust(+1)` wrap at chunk 5, offset 15. -/
theorem adjust_wraparound_witness :
    0 < MAX_NUM_CHUNKS ∧ MAX_NUM_CHUNKS ≤ MAX_NUM_CHUNKS ∧ 0 < TILE_MAP_COLUMNS ∧
      TILE_MAP_COLUMNS ≤ 256 ∧ 5 < MAX_NUM_CHUNKS ∧
      (adjust MAX_NUM_CHUNKS TILE_MAP_COLUMNS
          (from_chunk_offset 5 (TILE_MAP_COLUMNS - 1)) 1).map into_chunk
        = some { chunk_id := (5 + 1) % MAX_NUM_CHUNKS, offset := 0 } :=
  ⟨by decide, le_refl _, by decide, by decide, by decide,
    (adjust_wraparound MAX_NUM_CHUNKS TILE_MAP_COLUMNS (by decide) (le_refl _)
      (by decide) (by decide)).1 5 (by decide)⟩

/-! ### Rounding facts and canonicalization -/

lemma rust_round_close (q : ℚ) :
    -(1/2 : ℚ) ≤ q - rust_round q ∧ q - rust_round q ≤ 1/2 := by
  unfold rust_round
  by_cases h : q < 0
  · rw [if_pos h]
    have h1 := Int.floor_le (-q + 1/2)
    have h2 := Int.sub_one_lt_floor (-q + 1/2)
    push_cast
    constructor <;> linarith
  · rw [if_neg h]
    have h1 := Int.floor_le (q + 1/2)
    have h2 := Int.sub_one_lt_floor (q + 1/2)
    constructor <;> linarith

lemma rust_round_mem (q : ℚ) (h1 : -(3/2 : ℚ) < q) (h2 : q < 3/2) :
    rust_round q = -1 ∨ rust_round q = 0 ∨ rust_round q = 1 := by
  have hc := rust_round_close q
  have hlo : (-2 : ℚ) < (rust_round q : ℤ) := by linarith [hc.2]
  have hhi : ((rust_round q : ℤ) : ℚ) < 2 := by linarith [hc.1]
  have hlo' : (-2 : ℤ) < rust_round q := by exact_mod_cast hlo
  have hhi' : rust_round q < 2 := by exact_mod_cast hhi
  omega

lemma rust_round_zero (q : ℚ) (h1 : -(1/2 : ℚ) < q) (h2 : q < 1/2) :
    rust_round q = 0 := by
  unfold rust_round
  by_cases h : q < 0
  · rw [if_pos h]
    have : ⌊-q + 1/2⌋ = 0 := by
      rw [Int.floor_eq_zero_iff]
      constructor <;> simp <;> linarith
    rw [this]
    rfl
  · rw [if_neg h]
    rw [Int.floor_eq_zero_iff]
    constructor <;> simp <;> linarith

lemma rust_round_zero_iff (q : ℚ) : rust_round q = 0 ↔ -(1/2 : ℚ) < q ∧ q < 1/2 := by
  constructor
  · intro h
    unfold rust_round at h
    by_cases hq : q < 0
    · rw [if_pos hq] at h
      have h0 : ⌊-q + 1/2⌋ = 0 := by omega
      rw [Int.floor_eq_zero_iff, Set.mem_Ico] at h0
      constructor <;> linarith [h0.1, h0.2]
    · rw [if_neg hq] at h
      rw [Int.floor_eq_zero_iff, Set.mem_Ico] at h
      push_neg at hq
      constructor <;> linarith [h.1, h.2]
  · intro h
    exact rust_round_zero q h.1 h.2

lemma adjust_total (MC MO t : Nat) (s : Int) (h : s = -1 ∨ s = 0 ∨ s = 1) :
    ∃ u, adjust MC MO t s = some u := by
  unfold adjust
  rcases h with h | h | h <;> subst h
  · rw [if_neg (by decide), if_pos (Or.inr rfl), if_neg (by decide)]
    by_cases h0 : (into_chunk t).offset = 0
    · rw [if_pos h0]
      exact ⟨_, rfl⟩
    · rw [if_neg h0]
      exact ⟨_, rfl⟩
  · exact ⟨t, if_pos rfl⟩
  · rw [if_neg (by decide), if_pos (Or.inl rfl), if_pos rfl]
    by_cases hb : (into_chunk t).offset + 1 = MO
    · rw [if_pos hb]
      exact ⟨_, rfl⟩
    · rw [if_neg hb]
      exact ⟨_, rfl⟩

/-- C2: on every position whose `tile_rel` components lie strictly inside
`(-1.5, 1.5)`, `canonicalize` succeeds, each axis's rounded step is in
`{-1, 0, +1}`, the corresponding `AbsoluteTile` is adjusted by exactly that
step, the step is subtracted from the component, and both resulting
components lie strictly inside `(-1, 1)`. -/
theorem canonicalize_spec (p : WorldPosition)
    (hx1 : -(3/2 : ℚ) < p.tile_rel.x) (hx2 : p.tile_rel.x < 3/2)
    (hy1 : -(3/2 : ℚ) < p.tile_rel.y) (hy2 : p.tile_rel.y < 3/2) :
    ∃ p', canonicalize p = some p'
      ∧ (rust_round p.tile_rel.x = -1 ∨ rust_round p.tile_rel.x = 0 ∨
          rust_round p.tile_rel.x = 1)
      ∧ (rust_round p.tile_rel.y = -1 ∨ rust_round p.tile_rel.y = 0 ∨
          rust_round p.tile_rel.y = 1)
      ∧ adjust MAX_NUM_CHUNKS TILE_MAP_COLUMNS p.tile_map_x (rust_round p.tile_rel.x)
          = some p'.tile_map_x
      ∧ adjust MAX_NUM_CHUNKS TILE_MAP_ROWS p.tile_map_y (rust_round p.tile_rel.y)
          = some p'.tile_map_y
      ∧ p'.tile_rel.x = p.tile_rel.x - rust_round p.tile_rel.x
      ∧ p'.tile_rel.y = p.tile_rel.y - rust_round p.tile_rel.y
      ∧ p'.z = p.z
      ∧ -1 < p'.tile_rel.x ∧ p'.tile_rel.x < 1
      ∧ -1 < p'.tile_rel.y ∧ p'.tile_rel.y < 1 := by
  have hmx := rust_round_mem p.tile_rel.x hx1 hx2
  have hmy := rust_round_mem p.tile_rel.y hy1 hy2
  have hcx := rust_round_close p.tile_rel.x
  have hcy := rust_round_close p.tile_rel.y
  obtain ⟨tx, htx⟩ := adjust_total MAX_NUM_CHUNKS TILE_MAP_COLUMNS p.tile_map_x _ hmx
  obtain ⟨ty, hty⟩ := adjust_total MAX_NUM_CHUNKS TILE_MAP_ROWS p.tile_map_y _ hmy
  refine ⟨{ tile_map_x := tx, tile_map_y := ty, z := p.z,
            tile_rel := { x := p.tile_rel.x - rust_round p.tile_rel.x,
                          y := p.tile_rel.y - rust_round p.tile_rel.y } }, ?_,
    hmx, hmy, by simpa using htx, by simpa using hty, rfl, rfl, rfl,
    by simp; linarith [hcx.1], by simp; linarith [hcx.2],
    by simp; linarith [hcy.1], by simp; linarith [hcy.2]⟩
  unfold canonicalize
  rw [if_neg (not_not_intro ⟨by linarith, by linarith⟩),
    if_neg (not_not_intro ⟨by linarith, by linarith⟩), htx, hty]
  show (if _ then _ else _) = _
  rw [if_neg (by push_neg; constructor <;> linarith [hcx.1, hcx.2]),
    if_neg (by push_neg; constructor <;> linarith [hcy.1, hcy.2])]

/-- Witness for C2 at `tile_rel = (6/5, -3/5)`. -/
theorem canonicalize_spec_witness :
    -(3/2 : ℚ) < (6/5 : ℚ) ∧ (6/5 : ℚ) < 3/2 ∧ -(3/2 : ℚ) < (-(3/5) : ℚ) ∧
      (-(3/5) : ℚ) < 3/2 ∧
      ∃ p', canonicalize { tile_map_x := from_chunk_offset 0 5,
                           tile_map_y := from_chunk_offset 0 6, z := 0,
                           tile_rel := { x := 6/5, y := -(3/5) } } = some p'
        ∧ (rust_round (6/5 : ℚ) = -1 ∨ rust_round (6/5 : ℚ) = 0 ∨ rust_round (6/5 : ℚ) = 1)
        ∧ (rust_round (-(3/5) : ℚ) = -1 ∨ rust_round (-(3/5) : ℚ) = 0 ∨
            rust_round (-(3/5) : ℚ) = 1)
        ∧ adjust MAX_NUM_CHUNKS TILE_MAP_COLUMNS (from_chunk_offset 0 5)
            (rust_round (6/5 : ℚ)) = some p'.tile_map_x
        ∧ adjust MAX_NUM_CHUNKS TILE_MAP_ROWS (from_chunk_offset 0 6)
            (rust_round (-(3/5) : ℚ)) = some p'.tile_map_y
        ∧ p'.tile_rel.x = (6/5 : ℚ) - rust_round (6/5 : ℚ)
        ∧ p'.tile_rel.y = (-(3/5) : ℚ) - rust_round (-(3/5) : ℚ)
        ∧ p'.z = 0
        ∧ -1 < p'.tile_rel.x ∧ p'.tile_rel.x < 1
        ∧ -1 < p'.tile_rel.y ∧ p'.tile_rel.y < 1 :=
  ⟨by norm_num, by norm_num, by norm_num, by norm_num,
    canonicalize_spec _ (by norm_num) (by norm_num) (by norm_num) (by norm_num)⟩

/-- C7 counterexample: a position with `tile_rel = (3/4, 0)` lies inside
`(-1, 1)` on both axes, yet `canonicalize` moves it (the 3/4 rounds to a +1
step, shifting the x tile and leaving `tile_rel.x = -1/4`). -/
theorem canonicalize_not_id_on_unit_interval :
    -(1 : ℚ) < (3/4 : ℚ) ∧ (3/4 : ℚ) < 1 ∧
      canonicalize { tile_map_x := from_chunk_offset 0 5,
                     tile_map_y := from_chunk_offset 0 6, z := 0,
                     tile_rel := { x := 3/4, y := 0 } }
        ≠ some { tile_map_x := from_chunk_offset 0 5,
                 tile_map_y := from_chunk_offset 0 6, z := 0,
                 tile_rel := { x := 3/4, y := 0 } } := by
  refine ⟨by norm_num, by norm_num, ?_⟩
  have hr : rust_round (3/4 : ℚ) = 1 := by
    unfold rust_round
    rw [if_neg (by norm_num)]
    norm_num
  have hr0 : rust_round (0 : ℚ) = 0 := by
    unfold rust_round
    rw [if_neg (by norm_num)]
    norm_num
  have hax : adjust MAX_NUM_CHUNKS TILE_MAP_COLUMNS (from_chunk_offset 0 5) 1 = some 6 := by
    decide
  have hay : adjust MAX_NUM_CHUNKS TILE_MAP_ROWS (from_chunk_offset 0 6) 0
      = some (from_chunk_offset 0 6) := by decide
  have h5 : from_chunk_offset 0 5 = 5 := by decide
  intro h
  simp only [canonicalize] at h
  rw [hr, hr0] at h
  rw [hax, hay] at h
  norm_num [h5] at h

/-- C7 (amended): canonicalize leaves a position unchanged exactly when both
`tile_rel` components lie strictly inside `(-0.5, 0.5)` (the halves round away
from zero, so the unchanged region is the open half-tile interval, not
`(-1, 1)`): inside it the call returns the position itself, and whenever a
component is outside, the rounded step is nonzero and the returned position
(if any) has a different `tile_rel`, so the call never returns the input. -/
theorem canonicalize_id_on_half_interval (p : WorldPosition) :
    canonicalize p = some p ↔
      (-(1/2 : ℚ) < p.tile_rel.x ∧ p.tile_rel.x < 1/2
        ∧ -(1/2 : ℚ) < p.tile_rel.y ∧ p.tile_rel.y < 1/2) := by
  constructor
  · intro h
    unfold canonicalize at h
    split at h
    · exact Option.noConfusion h
    · split at h
      · exact Option.noConfusion h
      · cases hax : adjust MAX_NUM_CHUNKS TILE_MAP_COLUMNS p.tile_map_x
            (rust_round p.tile_rel.x) with
        | none =>
          rw [hax] at h
          exact Option.noConfusion h
        | some tx =>
          rw [hax] at h
          simp only [Option.some_bind] at h
          cases hay : adjust MAX_NUM_CHUNKS TILE_MAP_ROWS p.tile_map_y
              (rust_round p.tile_rel.y) with
          | none =>
            rw [hay] at h
            exact Option.noConfusion h
          | some ty =>
            rw [hay] at h
            simp only [Option.some_bind] at h
            split at h
            · exact Option.noConfusion h
            · split at h
              · exact Option.noConfusion h
              · have he := Option.some.inj h
                have hx := congrArg (fun w : WorldPosition => w.tile_rel.x) he
                have hy := congrArg (fun w : WorldPosition => w.tile_rel.y) he
                simp only at hx hy
                have hxz : rust_round p.tile_rel.x = 0 := by
                  have h0 : ((rust_round p.tile_rel.x : ℤ) : ℚ) = 0 := by linarith
                  exact_mod_cast h0
                have hyz : rust_round p.tile_rel.y = 0 := by
                  have h0 : ((rust_round p.tile_rel.y : ℤ) : ℚ) = 0 := by linarith
                  exact_mod_cast h0
                have hbx := (rust_round_zero_iff p.tile_rel.x).mp hxz
                have hby := (rust_round_zero_iff p.tile_rel.y).mp hyz
                exact ⟨hbx.1, hbx.2, hby.1, hby.2⟩
  · intro hh
    obtain ⟨hx1, hx2, hy1, hy2⟩ := hh
    have hzx := rust_round_zero p.tile_rel.x hx1 hx2
    have hzy := rust_round_zero p.tile_rel.y hy1 hy2
    unfold canonicalize
    rw [if_neg (not_not_intro ⟨by linarith, by linarith⟩),
      if_neg (not_not_intro ⟨by linarith, by linarith⟩), hzx, hzy]
    show (if _ then _ else _) = _
    rw [if_neg (by push_neg; constructor <;> simp <;> linarith),
      if_neg (by push_neg; constructor <;> simp <;> linarith)]
    simp

/-- Witness for the amended C7, exercising both directions: the identity at
`tile_rel = (1/4, -1/4)`, and (through the forward direction) that the
position with `tile_rel = (1/2, 0)` — the boundary half — is not returned
unchanged. -/
theorem canonicalize_id_on_half_interval_witness :
    canonicalize { tile_map_x := from_chunk_offset 0 5,
                   tile_map_y := from_chunk_offset 0 6, z := 0,
                   tile_rel := { x := 1/4, y := -(1/4) } }
        = some { tile_map_x := from_chunk_offset 0 5,
                 tile_map_y := from_chunk_offset 0 6, z := 0,
                 tile_rel := { x := 1/4, y := -(1/4) } }
    ∧ canonicalize { tile_map_x := from_chunk_offset 0 5,
                     tile_map_y := from_chunk_offset 0 6, z := 0,
                     tile_rel := { x := 1/2, y := 0 } }
        ≠ some { tile_map_x := from_chunk_offset 0 5,
                 tile_map_y := from_chunk_offset 0 6, z := 0,
                 tile_rel := { x := 1/2, y := 0 } } :=
  ⟨(canonicalize_id_on_half_interval _).mpr
      ⟨by norm_num, by norm_num, by norm_num, by norm_num⟩,
    fun h => absurd ((canonicalize_id_on_half_interval _).mp h).2.1 (by norm_num)⟩

lemma storage_row_of_lt (H y : Nat) (hH16 : H ≤ 2 ^ 16) (hy : y < H) :
    storage_row H y = H - 1 - y := by
  unfold storage_row U64_MOD
  omega

lemma storage_row_ge (H y : Nat) (hH : 0 < H) (hH16 : H ≤ 2 ^ 16) (hy16 : y < 2 ^ 16)
    (hy : H ≤ y) : H ≤ storage_row H y := by
  unfold storage_row U64_MOD
  omega

/-- C10: out-of-range coordinates make `get_tile_at`/`set_tile_at` fail with
a bounds error naming the offending axis's limit (`y` is checked first, as the
row is indexed first); in range, the storage row is `HEIGHT - 1 - y`, so a
`get` after a `set` at the same user coordinates returns the stored tile. -/
theorem tile_map_bounds (H W x y : Nat) (m : TileMap) (v : TileType)
    (hH : 0 < H) (hH16 : H ≤ 2 ^ 16) (hy16 : y < 2 ^ 16) :
    (H ≤ y →
      get_tile_at H W m x y = Except.error (BoundsErr.height (storage_row H y) H)
      ∧ set_tile_at H W m x y v = Except.error (BoundsErr.height (storage_row H y) H))
  ∧ (y < H → W ≤ x →
      get_tile_at H W m x y = Except.error (BoundsErr.width x W)
      ∧ set_tile_at H W m x y v = Except.error (BoundsErr.width x W))
  ∧ (y < H → x < W →
      get_tile_at H W m x y = Except.ok (m.data (H - 1 - y) x)
      ∧ ∃ m', set_tile_at H W m x y v = Except.ok m'
          ∧ get_tile_at H W m' x y = Except.ok v) := by
  refine ⟨?_, ?_, ?_⟩
  · intro hy
    have hge := storage_row_ge H y hH hH16 hy16 hy
    constructor
    · unfold get_tile_at
      rw [if_neg (by omega)]
    · unfold set_tile_at
      rw [if_neg (by omega)]
  · intro hy hx
    have hrow := storage_row_of_lt H y hH16 hy
    constructor
    · unfold get_tile_at
      rw [hrow, if_pos (by omega), if_neg (by omega)]
    · unfold set_tile_at
      rw [hrow, if_pos (by omega), if_neg (by omega)]
  · intro hy hx
    have hrow := storage_row_of_lt H y hH16 hy
    constructor
    · unfold get_tile_at
      rw [hrow, if_pos (by omega), if_pos hx]
    · refine ⟨{ data := fun r c => if r = H - 1 - y ∧ c = x then v else m.data r c }, ?_, ?_⟩
      · unfold set_tile_at
        rw [hrow, if_pos (by omega), if_pos hx]
      · unfold get_tile_at
        rw [hrow, if_pos (by omega), if_pos hx]
        simp

/-- Witness for C10 with the repository's 16×9 instantiation at `(x, y) = (3, 2)`
and an all-Empty map. -/
theorem tile_map_bounds_witness :
    0 < TILE_MAP_ROWS ∧ TILE_MAP_ROWS ≤ 2 ^ 16 ∧ 2 < 2 ^ 16 ∧
      (TILE_MAP_ROWS ≤ 2 → True)
      ∧ (2 < TILE_MAP_ROWS → TILE_MAP_COLUMNS ≤ 3 → True)
      ∧ (2 < TILE_MAP_ROWS → 3 < TILE_MAP_COLUMNS →
          get_tile_at TILE_MAP_ROWS TILE_MAP_COLUMNS { data := fun _ _ => TileType.Empty } 3 2
            = Except.ok (TileType.Empty)
          ∧ ∃ m', set_tile_at TILE_MAP_ROWS TILE_MAP_COLUMNS
                { data := fun _ _ => TileType.Empty } 3 2 TileType.Wall = Except.ok m'
              ∧ get_tile_at TILE_MAP_ROWS TILE_MAP_COLUMNS m' 3 2 = Except.ok TileType.Wall) :=
  ⟨by decide, by decide, by decide, fun _ => trivial, fun _ _ => trivial,
    fun h1 h2 => by
      have h := (tile_map_bounds TILE_MAP_ROWS TILE_MAP_COLUMNS 3 2
        { data := fun _ _ => TileType.Empty } TileType.Wall
        (by decide) (by decide) (by decide)).2.2 h1 h2
      simpa using h⟩

/-- `get_tilemap_at` dispatches to `init_tile_map` on a registry miss. -/
lemma get_tilemap_at_miss (fuel : Nat) (w : World) (rng : Rng) (pos : Nat × Nat) (z : Nat)
    (h : regLookup w.tile_maps (pos, z) = none) :
    get_tilemap_at (fuel + 1) w rng pos z = init_tile_map fuel w rng pos z := by
  rw [get_tilemap_at, h]
  rfl

/-! ### Registry lookup lemmas -/

lemma regLookup_append_ne (l : List (TileMapKey × TileMap)) (k k' : TileMapKey)
    (m0 : TileMap) (h : k' ≠ k) :
    regLookup (l ++ [(k, m0)]) k' = regLookup l k' := by
  induction l with
  | nil => simp [regLookup, h.symm]
  | cons e rest ih =>
    rw [List.cons_append, regLookup, regLookup]
    by_cases he : e.1 = k'
    · rw [if_pos he, if_pos he]
    · rw [if_neg he, if_neg he, ih]

lemma regLookup_append_self_of_none (l : List (TileMapKey × TileMap)) (k : TileMapKey)
    (m0 : TileMap) (h : regLookup l k = none) :
    regLookup (l ++ [(k, m0)]) k = some m0 := by
  induction l with
  | nil => simp [regLookup]
  | cons e rest ih =>
    by_cases he : e.1 = k
    · rw [regLookup, if_pos he] at h
      exact absurd h (by simp)
    · rw [regLookup, if_neg he] at h
      simp only [List.cons_append, regLookup, if_neg he]
      exact ih h

lemma regLookup_update_self (l : List (TileMapKey × TileMap)) (k : TileMapKey)
    (m m0 : TileMap) (h : regLookup l k = some m0) :
    regLookup (regUpdate l k m) k = some m := by
  induction l with
  | nil => simp [regLookup] at h
  | cons e rest ih =>
    by_cases he : e.1 = k
    · simp [regUpdate, he, regLookup]
    · rw [regLookup, if_neg he] at h
      simp only [regUpdate, if_neg he, regLookup, if_neg he]
      exact ih h

lemma regLookup_update_ne (l : List (TileMapKey × TileMap)) (k k' : TileMapKey)
    (m : TileMap) (h : k' ≠ k) :
    regLookup (regUpdate l k m) k' = regLookup l k' := by
  induction l with
  | nil => simp [regUpdate, regLookup]
  | cons e rest ih =>
    by_cases he : e.1 = k
    · subst he
      simp only [regUpdate, if_pos rfl, regLookup, if_neg (fun hh => h hh.symm : ¬e.1 = k'),
        if_neg (fun hh => h hh.symm : ¬e.1 = k')]
      exact ih
    · simp only [regUpdate, if_neg he, regLookup, ih]

lemma regLookup_alloc_update (l : List (TileMapKey × TileMap)) (k k' : TileMapKey)
    (m : TileMap) (hmiss : regLookup l k = none) :
    regLookup (regUpdate (l ++ [(k, empty_tile_map)]) k m) k'
      = if k' = k then some m else regLookup l k' := by
  by_cases hk : k' = k
  · subst hk
    rw [if_pos rfl]
    exact regLookup_update_self _ _ _ _ (regLookup_append_self_of_none l k' _ hmiss)
  · rw [if_neg hk, regLookup_update_ne _ _ _ _ hk, regLookup_append_ne _ _ _ _ hk]

lemma ladder_at_iff_data (m : TileMap) (x y : Nat)
    (hx : x < TILE_MAP_COLUMNS) (hy : y < TILE_MAP_ROWS) :
    ladder_at m x y ↔ m.data (TILE_MAP_ROWS - 1 - y) x = TileType.Ladder := by
  unfold ladder_at get_tile_at
  rw [storage_row_of_lt _ _ (by decide) hy, if_pos (by omega), if_pos hx]
  constructor
  · intro h
    exact Except.ok.inj h
  · intro h
    rw [h]

lemma not_ladder_at_empty (x y : Nat) : ¬ladder_at empty_tile_map x y := by
  intro h
  unfold ladder_at get_tile_at empty_tile_map at h
  by_cases h1 : storage_row TILE_MAP_ROWS y < TILE_MAP_ROWS
  · rw [if_pos h1] at h
    by_cases h2 : x < TILE_MAP_COLUMNS
    · rw [if_pos h2] at h
      exact absurd (Except.ok.inj h) (by simp)
    · rw [if_neg h2] at h
      exact Except.noConfusion h
  · rw [if_neg h1] at h
    exact Except.noConfusion h

lemma set_tile_ok (m : TileMap) (x y : Nat) (v : TileType)
    (hx : x < TILE_MAP_COLUMNS) (hy : y < TILE_MAP_ROWS) :
    set_tile_at TILE_MAP_ROWS TILE_MAP_COLUMNS m x y v = Except.ok
      { data := fun r c =>
          if r = TILE_MAP_ROWS - 1 - y ∧ c = x then v else m.data r c } := by
  unfold set_tile_at
  rw [storage_row_of_lt _ _ (by decide) hy, if_pos (by omega), if_pos hx]

lemma ladder_at_after_set (m : TileMap) (x y : Nat) (v : TileType) (a b : Nat)
    (hx : x < TILE_MAP_COLUMNS) (hy : y < TILE_MAP_ROWS)
    (ha : a < TILE_MAP_COLUMNS) (hb : b < TILE_MAP_ROWS) :
    ladder_at { data := fun r c =>
        if r = TILE_MAP_ROWS - 1 - y ∧ c = x then v else m.data r c } a b
      ↔ (if a = x ∧ b = y then v = TileType.Ladder else ladder_at m a b) := by
  rw [ladder_at_iff_data _ _ _ ha hb]
  by_cases hc : a = x ∧ b = y
  · obtain ⟨hcx, hcy⟩ := hc
    subst hcx
    subst hcy
    rw [if_pos ⟨rfl, rfl⟩]
    show (if TILE_MAP_ROWS - 1 - b = TILE_MAP_ROWS - 1 - b ∧ a = a then v
        else m.data (TILE_MAP_ROWS - 1 - b) a) = TileType.Ladder ↔ v = TileType.Ladder
    rw [if_pos ⟨rfl, rfl⟩]
  · rw [if_neg hc, ladder_at_iff_data _ _ _ ha hb]
    have hne : ¬(TILE_MAP_ROWS - 1 - b = TILE_MAP_ROWS - 1 - y ∧ a = x) := by
      intro hh
      exact hc ⟨hh.2, by omega⟩
    show (if TILE_MAP_ROWS - 1 - b = TILE_MAP_ROWS - 1 - y ∧ a = x then v
        else m.data (TILE_MAP_ROWS - 1 - b) a) = TileType.Ladder
      ↔ m.data (TILE_MAP_ROWS - 1 - b) a = TileType.Ladder
    rw [if_neg hne]

lemma gen_cell_step (st : GenState) (c : Nat × Nat)
    (hcx : c.1 < TILE_MAP_COLUMNS) (hcy : c.2 < TILE_MAP_ROWS)
    (hinv : GenInv st) (hne : st.other_floor ≠ some c) :
    ∃ st', gen_cell st c = some st' ∧ GenInv st'
      ∧ (st'.other_floor = st.other_floor ∨ st'.other_floor = some c) := by
  obtain ⟨hiff, hls, hbnd⟩ := hinv
  have hsetv : ∀ v : TileType, v ≠ TileType.Ladder →
      GenInv { st with map :=
        { data := fun r c' =>
            if r = TILE_MAP_ROWS - 1 - c.2 ∧ c' = c.1 then v else st.map.data r c' } } := by
    intro v hv
    refine ⟨?_, hls, hbnd⟩
    intro a b ha hb
    rw [ladder_at_after_set st.map c.1 c.2 v a b hcx hcy ha hb]
    by_cases hab : a = c.1 ∧ b = c.2
    · rw [if_pos hab]
      obtain ⟨h1, h2⟩ := hab
      subst h1
      subst h2
      constructor
      · intro hvv
        exact absurd hvv hv
      · intro hoth
        exact absurd hoth hne
    · rw [if_neg hab]
      exact hiff a b ha hb
  simp only [gen_cell]
  by_cases h1 : c.2 = 0 ∨ c.2 = TILE_MAP_ROWS - 1
  · rw [if_pos h1, set_tile_ok _ _ _ _ hcx hcy]
    refine ⟨_, rfl, ?_, Or.inl rfl⟩
    apply hsetv
    split
    · intro hh
      exact TileType.noConfusion hh
    · intro hh
      exact TileType.noConfusion hh
  · rw [if_neg h1]
    by_cases h2 : c.1 = 0 ∨ c.1 = TILE_MAP_COLUMNS - 1
    · rw [if_pos h2, set_tile_ok _ _ _ _ hcx hcy]
      refine ⟨_, rfl, ?_, Or.inl rfl⟩
      apply hsetv
      split
      · intro hh
        exact TileType.noConfusion hh
      · intro hh
        exact TileType.noConfusion hh
    · rw [if_neg h2]
      by_cases h3 : st.ladder_set = false
      · rw [if_pos h3]
        have hnone : st.other_floor = none := by
          rw [h3] at hls
          cases hoth : st.other_floor with
          | none => rfl
          | some p =>
            rw [hoth] at hls
            exact absurd hls.symm (by simp)
        by_cases h4 : (st.rng.next).1 % 64 = 0
        · rw [if_pos h4, set_tile_ok _ _ _ _ hcx hcy]
          refine ⟨_, rfl, ⟨?_, rfl, ?_⟩, Or.inr rfl⟩
          · intro a b ha hb
            rw [ladder_at_after_set st.map c.1 c.2 TileType.Ladder a b hcx hcy ha hb]
            by_cases hab : a = c.1 ∧ b = c.2
            · rw [if_pos hab]
              obtain ⟨hh1, hh2⟩ := hab
              subst hh1
              subst hh2
              simp
            · rw [if_neg hab]
              rw [hiff a b ha hb, hnone]
              constructor
              · intro hh
                exact Option.noConfusion hh
              · intro hh
                have := Option.some.inj hh
                exact absurd ⟨congrArg Prod.fst this.symm, congrArg Prod.snd this.symm⟩ hab
          · intro p hp
            have hpc := Option.some.inj hp
            subst hpc
            refine ⟨by omega, by omega, by omega, by omega⟩
        · rw [if_neg h4]
          by_cases h5 : ((st.rng.next).2.next).1 % 16 = 0
          · rw [if_pos h5, set_tile_ok _ _ _ _ hcx hcy]
            refine ⟨_, rfl, ?_, Or.inl rfl⟩
            exact hsetv TileType.Wall (fun hh => TileType.noConfusion hh)
          · rw [if_neg h5]
            exact ⟨_, rfl, ⟨hiff, hls, hbnd⟩, Or.inl rfl⟩
      · rw [if_neg h3]
        by_cases h5 : (st.rng.next).1 % 16 = 0
        · rw [if_pos h5, set_tile_ok _ _ _ _ hcx hcy]
          refine ⟨_, rfl, ?_, Or.inl rfl⟩
          exact hsetv TileType.Wall (fun hh => TileType.noConfusion hh)
        · rw [if_neg h5]
          exact ⟨_, rfl, ⟨hiff, hls, hbnd⟩, Or.inl rfl⟩

lemma gen_fold (cells : List (Nat × Nat)) (st : GenState)
    (hc : ∀ c ∈ cells, c.1 < TILE_MAP_COLUMNS ∧ c.2 < TILE_MAP_ROWS)
    (hnd : cells.Nodup)
    (hfresh : ∀ p, st.other_floor = some p → p ∉ cells)
    (hinv : GenInv st) :
    ∃ st', List.foldlM gen_cell st cells = some st' ∧ GenInv st' := by
  induction cells generalizing st with
  | nil => exact ⟨st, rfl, hinv⟩
  | cons c rest ih =>
    have hcc := hc c (List.mem_cons_self _ _)
    have hne : st.other_floor ≠ some c := by
      intro h
      exact hfresh c h (List.mem_cons_self _ _)
    obtain ⟨st1, hstep, hinv1, horl⟩ := gen_cell_step st c hcc.1 hcc.2 hinv hne
    have hfresh1 : ∀ p, st1.other_floor = some p → p ∉ rest := by
      intro p hp
      rcases horl with horl | horl
      · rw [horl] at hp
        intro hmem
        exact hfresh p hp (List.mem_cons_of_mem _ hmem)
      · rw [horl] at hp
        have := Option.some.inj hp
        subst this
        exact (List.nodup_cons.mp hnd).1
    obtain ⟨st', hrun, hinv'⟩ := ih st1
      (fun c' hmem => hc c' (List.mem_cons_of_mem _ hmem))
      (List.nodup_cons.mp hnd).2 hfresh1 hinv1
    refine ⟨st', ?_, hinv'⟩
    rw [List.foldlM_cons, hstep]
    show rest.foldlM gen_cell st1 = some st'
    exact hrun

set_option maxRecDepth 4000 in
lemma gen_cells_bounds : ∀ c ∈ gen_cells, c.1 < TILE_MAP_COLUMNS ∧ c.2 < TILE_MAP_ROWS := by
  decide

set_option maxRecDepth 4000 in
lemma gen_cells_nodup : gen_cells.Nodup := by decide

/-- Every run of the generation loop succeeds, and its result satisfies the
loop invariant: ladder cells = the recorded `other_floor` cell, which is
interior when present. -/
lemma gen_map_spec (rng : Rng) : ∃ gst, gen_map rng = some gst ∧ GenInv gst := by
  apply gen_fold gen_cells _ gen_cells_bounds gen_cells_nodup
  · intro p hp
    exact absurd hp (by simp)
  · refine ⟨?_, rfl, ?_⟩
    · intro x y hx hy
      constructor
      · intro h
        exact absurd h (not_ladder_at_empty x y)
      · intro h
        exact Option.noConfusion h
    · intro p hp
      exact Option.noConfusion hp

lemma get_tilemap_at_hit (fuel : Nat) (w : World) (rng : Rng) (pos : Nat × Nat) (z : Nat)
    (m : TileMap) (h : regLookup w.tile_maps (pos, z) = some m) :
    get_tilemap_at fuel w rng pos z = some (w, rng) := by
  cases fuel with
  | zero => rw [get_tilemap_at, h]
  | succ fuel' => rw [get_tilemap_at, h]

lemma ladder_at_set_ladder (m : TileMap) (x y : Nat)
    (hx : x < TILE_MAP_COLUMNS) (hy : y < TILE_MAP_ROWS) (a b : Nat)
    (ha : a < TILE_MAP_COLUMNS) (hb : b < TILE_MAP_ROWS) :
    ladder_at { data := fun r c =>
        if r = TILE_MAP_ROWS - 1 - y ∧ c = x then TileType.Ladder else m.data r c } a b
      ↔ ((a, b) = (x, y) ∨ ladder_at m a b) := by
  rw [ladder_at_after_set m x y TileType.Ladder a b hx hy ha hb]
  by_cases hab : a = x ∧ b = y
  · rw [if_pos hab]
    simp [Prod.ext_iff, hab.1, hab.2]
  · rw [if_neg hab]
    simp only [Prod.mk.injEq]
    constructor
    · intro hh
      exact Or.inr hh
    · intro hh
      rcases hh with hh | hh
      · exact absurd hh hab
      · exact hh

lemma other_floor_clean (w : World) (pos : Nat × Nat) (z : Nat) (hz : z ≤ 1)
    (hmiss : regLookup w.tile_maps (pos, z) = none) (hsym : LadderSym w)
    (mB : TileMap) (hB : regLookup w.tile_maps (pos, (z + 1) % 2) = some mB) :
    ∀ a b, a < TILE_MAP_COLUMNS → b < TILE_MAP_ROWS → ¬ladder_at mB a b := by
  intro a b ha hb hl
  have hzz : z = 0 ∨ z = 1 := by omega
  rcases hzz with hzz | hzz
  · subst hzz
    have h1 : LadderW w pos 1 a b := ⟨mB, hB, hl⟩
    obtain ⟨m, hm, _⟩ := (hsym pos a b ha hb).mpr h1
    rw [hmiss] at hm
    exact Option.noConfusion hm
  · subst hzz
    have h0 : LadderW w pos 0 a b := ⟨mB, hB, hl⟩
    obtain ⟨m, hm, _⟩ := (hsym pos a b ha hb).mp h0
    rw [hmiss] at hm
    exact Option.noConfusion hm

lemma pair_world_invariants (w wfin : World) (pos : Nat × Nat) (z : Nat) (hz : z ≤ 1)
    (mz moz : TileMap) (p q : Nat × Nat)
    (hzl : regLookup wfin.tile_maps (pos, z) = some mz)
    (hozl : regLookup wfin.tile_maps (pos, (z + 1) % 2) = some moz)
    (hoth : ∀ k : TileMapKey, k ≠ (pos, z) → k ≠ (pos, (z + 1) % 2) →
      regLookup wfin.tile_maps k = regLookup w.tile_maps k)
    (hmz : ∀ a b, a < TILE_MAP_COLUMNS → b < TILE_MAP_ROWS →
      (ladder_at mz a b ↔ ((a, b) = p ∨ (a, b) = q)))
    (hmoz : ∀ a b, a < TILE_MAP_COLUMNS → b < TILE_MAP_ROWS →
      (ladder_at moz a b ↔ ((a, b) = p ∨ (a, b) = q)))
    (hsym : LadderSym w) (htwo : AtMostTwo w) :
    LadderSym wfin ∧ AtMostTwo wfin := by
  have hfloor : ∀ zz, zz ≤ 1 → ∃ mm, regLookup wfin.tile_maps (pos, zz) = some mm
      ∧ ∀ a b, a < TILE_MAP_COLUMNS → b < TILE_MAP_ROWS →
        (ladder_at mm a b ↔ ((a, b) = p ∨ (a, b) = q)) := by
    intro zz hzz
    by_cases hzze : zz = z
    · subst hzze
      exact ⟨mz, hzl, hmz⟩
    · have : zz = (z + 1) % 2 := by omega
      subst this
      exact ⟨moz, hozl, hmoz⟩
  constructor
  · intro pos' x y hx hy
    by_cases hp : pos' = pos
    · subst hp
      obtain ⟨m0, hm0, hiff0⟩ := hfloor 0 (by omega)
      obtain ⟨m1, hm1, hiff1⟩ := hfloor 1 (by omega)
      constructor
      · intro hL
        obtain ⟨m, hm, hl⟩ := hL
        rw [hm0] at hm
        have := Option.some.inj hm
        subst this
        exact ⟨m1, hm1, (hiff1 x y hx hy).mpr ((hiff0 x y hx hy).mp hl)⟩
      · intro hL
        obtain ⟨m, hm, hl⟩ := hL
        rw [hm1] at hm
        have := Option.some.inj hm
        subst this
        exact ⟨m0, hm0, (hiff0 x y hx hy).mpr ((hiff1 x y hx hy).mp hl)⟩
    · have e0 : regLookup wfin.tile_maps (pos', 0) = regLookup w.tile_maps (pos', 0) :=
        hoth _ (by simp [hp]) (by simp [hp])
      have e1 : regLookup wfin.tile_maps (pos', 1) = regLookup w.tile_maps (pos', 1) :=
        hoth _ (by simp [hp]) (by simp [hp])
      unfold LadderW
      rw [e0, e1]
      exact hsym pos' x y hx hy
  · intro k m hk
    by_cases hk0 : k = (pos, z)
    · subst hk0
      rw [hzl] at hk
      have := Option.some.inj hk
      subst this
      exact ⟨p, q, fun x y hx hy hl => (hmz x y hx hy).mp hl⟩
    · by_cases hk1 : k = (pos, (z + 1) % 2)
      · subst hk1
        rw [hozl] at hk
        have := Option.some.inj hk
        subst this
        exact ⟨p, q, fun x y hx hy hl => (hmoz x y hx hy).mp hl⟩
      · rw [hoth k hk0 hk1] at hk
        exact htwo k m hk

lemma single_world_invariants (w wfin : World) (pos : Nat × Nat) (z : Nat) (hz : z ≤ 1)
    (mz : TileMap)
    (hzl : regLookup wfin.tile_maps (pos, z) = some mz)
    (hclean : ∀ a b, a < TILE_MAP_COLUMNS → b < TILE_MAP_ROWS → ¬ladder_at mz a b)
    (hoth : ∀ k : TileMapKey, k ≠ (pos, z) →
      regLookup wfin.tile_maps k = regLookup w.tile_maps k)
    (hmiss : regLookup w.tile_maps (pos, z) = none)
    (hsym : LadderSym w) (htwo : AtMostTwo w) :
    LadderSym wfin ∧ AtMostTwo wfin := by
  have hozne : ((z + 1) % 2 : Nat) ≠ z := by omega
  constructor
  · intro pos' x y hx hy
    by_cases hp : pos' = pos
    · rw [hp]
      have hself : ¬LadderW wfin pos z x y := by
        intro hL
        obtain ⟨m, hm, hl⟩ := hL
        rw [hzl] at hm
        have := Option.some.inj hm
        subst this
        exact hclean x y hx hy hl
      have hother : ¬LadderW wfin pos ((z + 1) % 2) x y := by
        intro hL
        obtain ⟨m, hm, hl⟩ := hL
        rw [hoth (pos, (z + 1) % 2) (by simp [hozne])] at hm
        have hw : LadderW w pos ((z + 1) % 2) x y := ⟨m, hm, hl⟩
        have hwz : LadderW w pos z x y := by
          have hzz : z = 0 ∨ z = 1 := by omega
          rcases hzz with hzz | hzz <;> subst hzz
          · exact (hsym pos x y hx hy).mpr (by simpa using hw)
          · exact (hsym pos x y hx hy).mp (by simpa using hw)
        obtain ⟨m0, hm0, _⟩ := hwz
        rw [hmiss] at hm0
        exact Option.noConfusion hm0
      have hzz : z = 0 ∨ z = 1 := by omega
      rcases hzz with hzz | hzz <;> subst hzz
      · constructor
        · intro h
          exact absurd h hself
        · intro h
          exact absurd h (by simpa using hother)
      · constructor
        · intro h
          exact absurd h (by simpa using hother)
        · intro h
          exact absurd h hself
    · have e0 : regLookup wfin.tile_maps (pos', 0) = regLookup w.tile_maps (pos', 0) :=
        hoth _ (by simp [hp])
      have e1 : regLookup wfin.tile_maps (pos', 1) = regLookup w.tile_maps (pos', 1) :=
        hoth _ (by simp [hp])
      unfold LadderW
      rw [e0, e1]
      exact hsym pos' x y hx hy
  · intro k m hk
    by_cases hk0 : k = (pos, z)
    · subst hk0
      rw [hzl] at hk
      have := Option.some.inj hk
      subst this
      exact ⟨(0, 0), (0, 0), fun x y hx hy hl => absurd hl (hclean x y hx hy)⟩
    · rw [hoth k hk0] at hk
      exact htwo k m hk

lemma except_toOption_ok {ε α : Type} (e : Except ε α) (a : α) (h : e = Except.ok a) :
    e.toOption = some a := by
  rw [h]
  rfl

lemma get_tilemap_at_zero_miss (w : World) (rng : Rng) (pos : Nat × Nat) (z : Nat)
    (h : regLookup w.tile_maps (pos, z) = none) :
    get_tilemap_at 0 w rng pos z = none := by
  rw [get_tilemap_at, h]

lemma init_tile_map_full (fuel : Nat) (w : World) (rng : Rng) (pos : Nat × Nat) (z : Nat)
    (hlen : ¬w.tile_maps.length < PREALLOC_TILE_MAPS) :
    init_tile_map fuel w rng pos z = none := by
  rw [init_tile_map, alloc_tilemap_at, if_neg hlen]
  rfl

lemma init_run_none (fuel : Nat) (w : World) (rng : Rng) (pos : Nat × Nat) (z : Nat)
    (gst : GenState) (hlen : w.tile_maps.length < PREALLOC_TILE_MAPS)
    (hgen : gen_map rng = some gst) (hof : gst.other_floor = none) :
    init_tile_map fuel w rng pos z
      = get_tilemap_at fuel
          { tile_maps := regUpdate (w.tile_maps ++ [((pos, z), empty_tile_map)]) (pos, z)
              gst.map } gst.rng pos z := by
  rw [init_tile_map, alloc_tilemap_at, if_pos hlen, Option.some_bind, hgen,
    Option.some_bind, hof]

lemma init_run_some (fuel : Nat) (w : World) (rng : Rng) (pos : Nat × Nat) (z : Nat)
    (gst : GenState) (xy : Nat × Nat) (hlen : w.tile_maps.length < PREALLOC_TILE_MAPS)
    (hgen : gen_map rng = some gst) (hof : gst.other_floor = some xy) :
    init_tile_map fuel w rng pos z
      = (get_tilemap_at fuel
          { tile_maps := regUpdate (w.tile_maps ++ [((pos, z), empty_tile_map)]) (pos, z)
              gst.map } gst.rng pos ((z + 1) % 2)).bind fun wr3 =>
        (regLookup wr3.1.tile_maps (pos, (z + 1) % 2)).bind fun m1 =>
        (set_tile_at TILE_MAP_ROWS TILE_MAP_COLUMNS m1 xy.1 xy.2
          TileType.Ladder).toOption.bind fun m1' =>
        get_tilemap_at fuel
          { tile_maps := regUpdate wr3.1.tile_maps (pos, (z + 1) % 2) m1' } wr3.2 pos z := by
  rw [init_tile_map, alloc_tilemap_at, if_pos hlen, Option.some_bind, hgen,
    Option.some_bind, hof]

/-- One `get_tilemap_at` call on a floor in {0, 1} preserves ladder-pairing
symmetry and the two-ladder bound. -/
theorem get_tilemap_preserves (fuel : Nat) (w : World) (rng : Rng) (pos : Nat × Nat)
    (z : Nat) (w' : World) (rng' : Rng) (hz : z ≤ 1)
    (hsym : LadderSym w) (htwo : AtMostTwo w)
    (h : get_tilemap_at fuel w rng pos z = some (w', rng')) :
    LadderSym w' ∧ AtMostTwo w' := by
  have hozz : ((z + 1) % 2) ≠ z := by omega
  have hozzk : ((pos, (z + 1) % 2) : TileMapKey) ≠ (pos, z) := by
    simp [Prod.ext_iff, hozz]
  have hozzk' : ((pos, z) : TileMapKey) ≠ (pos, (z + 1) % 2) := fun hh => hozzk hh.symm
  have hozz2 : (((z + 1) % 2 + 1) % 2) = z := by omega
  cases hmiss : regLookup w.tile_maps (pos, z) with
  | some m0 =>
    rw [get_tilemap_at_hit fuel w rng pos z m0 hmiss] at h
    simp only [Option.some.injEq, Prod.mk.injEq] at h
    obtain ⟨hw, hrng⟩ := h
    subst hw
    exact ⟨hsym, htwo⟩
  | none =>
    cases fuel with
    | zero =>
      rw [get_tilemap_at_zero_miss w rng pos z hmiss] at h
      exact Option.noConfusion h
    | succ fuel' =>
      rw [get_tilemap_at_miss fuel' w rng pos z hmiss] at h
      by_cases hlen : w.tile_maps.length < PREALLOC_TILE_MAPS
      case neg =>
        rw [init_tile_map_full fuel' w rng pos z hlen] at h
        exact Option.noConfusion h
      case pos =>
      obtain ⟨gstA, hgA, hiffA, hlsA, hbndA⟩ := gen_map_spec rng
      have hw2 : ∀ k' : TileMapKey,
          regLookup (regUpdate (w.tile_maps ++ [((pos, z), empty_tile_map)]) (pos, z)
              gstA.map) k'
            = if k' = (pos, z) then some gstA.map else regLookup w.tile_maps k' :=
        fun k' => regLookup_alloc_update _ _ _ _ hmiss
      have hW2self : regLookup (regUpdate (w.tile_maps ++ [((pos, z), empty_tile_map)])
          (pos, z) gstA.map) (pos, z) = some gstA.map := by
        rw [hw2, if_pos rfl]
      cases hofA : gstA.other_floor with
      | none =>
        rw [init_run_none fuel' w rng pos z gstA hlen hgA hofA] at h
        have hclean : ∀ a b, a < TILE_MAP_COLUMNS → b < TILE_MAP_ROWS →
            ¬ladder_at gstA.map a b := by
          intro a b ha hb hl
          rw [hiffA a b ha hb, hofA] at hl
          exact Option.noConfusion hl
        rw [get_tilemap_at_hit _ _ _ _ _ gstA.map hW2self] at h
        simp only [Option.some.injEq, Prod.mk.injEq] at h
        obtain ⟨hw, hrng⟩ := h
        subst hw
        exact single_world_invariants w _ pos z hz gstA.map hW2self hclean
          (fun k hk => by rw [hw2, if_neg hk]) hmiss hsym htwo
      | some xy =>
        rw [init_run_some fuel' w rng pos z gstA xy hlen hgA hofA] at h
        obtain ⟨hxy1, hxy2, hxy3, hxy4⟩ := hbndA xy hofA
        have hiffA' : ∀ a b, a < TILE_MAP_COLUMNS → b < TILE_MAP_ROWS →
            (ladder_at gstA.map a b ↔ (a, b) = xy) := by
          intro a b ha hb
          rw [hiffA a b ha hb, hofA]
          constructor
          · intro hh
            exact (Option.some.inj hh).symm
          · intro hh
            rw [hh]
        cases hinner : get_tilemap_at fuel'
            { tile_maps := regUpdate (w.tile_maps ++ [((pos, z), empty_tile_map)]) (pos, z)
                gstA.map } gstA.rng pos ((z + 1) % 2) with
        | none =>
          rw [hinner, Option.none_bind] at h
          exact Option.noConfusion h
        | some wr3 =>
          obtain ⟨w3, rng3⟩ := wr3
          rw [hinner] at h
          simp only [Option.some_bind] at h
          -- `h` now continues from (w3, rng3); characterize them through `hinner`.
          cases hBlook : regLookup w.tile_maps (pos, (z + 1) % 2) with
          | some mB =>
            have hBclean := other_floor_clean w pos z hz hmiss hsym mB hBlook
            have hB2 : regLookup (regUpdate (w.tile_maps ++ [((pos, z), empty_tile_map)])
                (pos, z) gstA.map) (pos, (z + 1) % 2) = some mB := by
              rw [hw2, if_neg hozzk]
              exact hBlook
            rw [get_tilemap_at_hit _ _ _ _ _ mB hB2] at hinner
            simp only [Option.some.injEq, Prod.mk.injEq] at hinner
            obtain ⟨hw3, hrng3⟩ := hinner
            subst hw3
            subst hrng3
            rw [hB2] at h
            simp only [Option.some_bind] at h
            rw [except_toOption_ok _ _
              (set_tile_ok mB xy.1 xy.2 TileType.Ladder (by omega) (by omega))] at h
            simp only [Option.some_bind] at h
            have hW4z : regLookup (regUpdate (regUpdate (w.tile_maps ++
                [((pos, z), empty_tile_map)]) (pos, z) gstA.map) (pos, (z + 1) % 2)
                { data := fun r c => if r = TILE_MAP_ROWS - 1 - xy.2 ∧ c = xy.1
                    then TileType.Ladder else mB.data r c }) (pos, z)
                = some gstA.map := by
              rw [regLookup_update_ne _ _ _ _ hozzk']
              exact hW2self
            have hW4oz : regLookup (regUpdate (regUpdate (w.tile_maps ++
                [((pos, z), empty_tile_map)]) (pos, z) gstA.map) (pos, (z + 1) % 2)
                { data := fun r c => if r = TILE_MAP_ROWS - 1 - xy.2 ∧ c = xy.1
                    then TileType.Ladder else mB.data r c }) (pos, (z + 1) % 2)
                = some { data := fun r c => if r = TILE_MAP_ROWS - 1 - xy.2 ∧ c = xy.1
                    then TileType.Ladder else mB.data r c } :=
              regLookup_update_self _ _ _ _ hB2
            rw [get_tilemap_at_hit _ _ _ _ _ gstA.map hW4z] at h
            simp only [Option.some.injEq, Prod.mk.injEq] at h
            obtain ⟨hw, hrng⟩ := h
            subst hw
            refine pair_world_invariants w _ pos z hz gstA.map _ xy xy hW4z hW4oz
              (fun k hk1 hk2 => by
                rw [regLookup_update_ne _ _ _ _ hk2, hw2, if_neg hk1]) ?_ ?_ hsym htwo
            · intro a b ha hb
              rw [hiffA' a b ha hb]
              simp
            · intro a b ha hb
              rw [ladder_at_set_ladder mB xy.1 xy.2 (by omega) (by omega) a b ha hb]
              constructor
              · intro hh
                rcases hh with hh | hh
                · exact Or.inl hh
                · exact absurd hh (hBclean a b ha hb)
              · intro hh
                rcases hh with hh | hh
                · exact Or.inl hh
                · exact Or.inl hh
          | none =>
            have hB2 : regLookup (regUpdate (w.tile_maps ++ [((pos, z), empty_tile_map)])
                (pos, z) gstA.map) (pos, (z + 1) % 2) = none := by
              rw [hw2, if_neg hozzk]
              exact hBlook
            cases fuel' with
            | zero =>
              rw [get_tilemap_at_zero_miss _ _ _ _ hB2] at hinner
              exact Option.noConfusion hinner
            | succ fuel'' =>
              rw [get_tilemap_at_miss fuel'' _ _ _ _ hB2] at hinner
              by_cases hlen2 : (regUpdate (w.tile_maps ++ [((pos, z), empty_tile_map)])
                  (pos, z) gstA.map).length < PREALLOC_TILE_MAPS
              case neg =>
                rw [init_tile_map_full _ _ _ _ _ hlen2] at hinner
                exact Option.noConfusion hinner
              case pos =>
              obtain ⟨gstB, hgB, hiffB, hlsB, hbndB⟩ := gen_map_spec gstA.rng
              have hw2b : ∀ k' : TileMapKey,
                  regLookup (regUpdate ((regUpdate (w.tile_maps ++
                      [((pos, z), empty_tile_map)]) (pos, z) gstA.map) ++
                      [((pos, (z + 1) % 2), empty_tile_map)]) (pos, (z + 1) % 2)
                      gstB.map) k'
                    = if k' = (pos, (z + 1) % 2) then some gstB.map
                      else if k' = (pos, z) then some gstA.map
                      else regLookup w.tile_maps k' := by
                intro k'
                rw [regLookup_alloc_update _ _ _ _ hB2]
                by_cases hk' : k' = (pos, (z + 1) % 2)
                · rw [if_pos hk', if_pos hk']
                · rw [if_neg hk', if_neg hk', hw2]
              have hW2bB : regLookup (regUpdate ((regUpdate (w.tile_maps ++
                  [((pos, z), empty_tile_map)]) (pos, z) gstA.map) ++
                  [((pos, (z + 1) % 2), empty_tile_map)]) (pos, (z + 1) % 2)
                  gstB.map) (pos, (z + 1) % 2) = some gstB.map := by
                rw [hw2b, if_pos rfl]
              have hW2bA : regLookup (regUpdate ((regUpdate (w.tile_maps ++
                  [((pos, z), empty_tile_map)]) (pos, z) gstA.map) ++
                  [((pos, (z + 1) % 2), empty_tile_map)]) (pos, (z + 1) % 2)
                  gstB.map) (pos, z) = some gstA.map := by
                rw [hw2b, if_neg hozzk.symm]
                · rw [if_pos rfl]
              cases hofB : gstB.other_floor with
              | none =>
                rw [init_run_none fuel'' _ _ pos ((z + 1) % 2) gstB hlen2 hgB hofB]
                  at hinner
                have hBclean : ∀ a b, a < TILE_MAP_COLUMNS → b < TILE_MAP_ROWS →
                    ¬ladder_at gstB.map a b := by
                  intro a b ha hb hl
                  rw [hiffB a b ha hb, hofB] at hl
                  exact Option.noConfusion hl
                rw [get_tilemap_at_hit _ _ _ _ _ gstB.map hW2bB] at hinner
                simp only [Option.some.injEq, Prod.mk.injEq] at hinner
                obtain ⟨hw3, hrng3⟩ := hinner
                subst hw3
                subst hrng3
                rw [hW2bB] at h
                simp only [Option.some_bind] at h
                rw [except_toOption_ok _ _
                  (set_tile_ok gstB.map xy.1 xy.2 TileType.Ladder (by omega)
                    (by omega))] at h
                simp only [Option.some_bind] at h
                have hW4z : regLookup (regUpdate (regUpdate ((regUpdate (w.tile_maps ++
                    [((pos, z), empty_tile_map)]) (pos, z) gstA.map) ++
                    [((pos, (z + 1) % 2), empty_tile_map)]) (pos, (z + 1) % 2)
                    gstB.map) (pos, (z + 1) % 2)
                    { data := fun r c => if r = TILE_MAP_ROWS - 1 - xy.2 ∧ c = xy.1
                        then TileType.Ladder else gstB.map.data r c }) (pos, z)
                    = some gstA.map := by
                  rw [regLookup_update_ne _ _ _ _ hozzk']
                  exact hW2bA
                have hW4oz : regLookup (regUpdate (regUpdate ((regUpdate (w.tile_maps ++
                    [((pos, z), empty_tile_map)]) (pos, z) gstA.map) ++
                    [((pos, (z + 1) % 2), empty_tile_map)]) (pos, (z + 1) % 2)
                    gstB.map) (pos, (z + 1) % 2)
                    { data := fun r c => if r = TILE_MAP_ROWS - 1 - xy.2 ∧ c = xy.1
                        then TileType.Ladder else gstB.map.data r c }) (pos, (z + 1) % 2)
                    = some { data := fun r c => if r = TILE_MAP_ROWS - 1 - xy.2 ∧
                        c = xy.1 then TileType.Ladder else gstB.map.data r c } :=
                  regLookup_update_self _ _ _ _ hW2bB
                rw [get_tilemap_at_hit _ _ _ _ _ gstA.map hW4z] at h
                simp only [Option.some.injEq, Prod.mk.injEq] at h
                obtain ⟨hw, hrng⟩ := h
                subst hw
                refine pair_world_invariants w _ pos z hz gstA.map _ xy xy hW4z hW4oz
                  (fun k hk1 hk2 => by
                    rw [regLookup_update_ne _ _ _ _ hk2, hw2b, if_neg hk2, if_neg hk1])
                  ?_ ?_ hsym htwo
                · intro a b ha hb
                  rw [hiffA' a b ha hb]
                  simp
                · intro a b ha hb
                  rw [ladder_at_set_ladder gstB.map xy.1 xy.2 (by omega) (by omega)
                    a b ha hb]
                  constructor
                  · intro hh
                    rcases hh with hh | hh
                    · exact Or.inl hh
                    · exact absurd hh (hBclean a b ha hb)
                  · intro hh
                    rcases hh with hh | hh
                    · exact Or.inl hh
                    · exact Or.inl hh
              | some xy2 =>
                rw [init_run_some fuel'' _ _ pos ((z + 1) % 2) gstB xy2 hlen2 hgB hofB]
                  at hinner
                obtain ⟨hxy21, hxy22, hxy23, hxy24⟩ := hbndB xy2 hofB
                have hiffB' : ∀ a b, a < TILE_MAP_COLUMNS → b < TILE_MAP_ROWS →
                    (ladder_at gstB.map a b ↔ (a, b) = xy2) := by
                  intro a b ha hb
                  rw [hiffB a b ha hb, hofB]
                  constructor
                  · intro hh
                    exact (Option.some.inj hh).symm
                  · intro hh
                    rw [hh]
                rw [hozz2] at hinner
                rw [get_tilemap_at_hit _ _ _ _ _ gstA.map hW2bA] at hinner
                simp only [Option.some_bind] at hinner
                rw [hW2bA] at hinner
                simp only [Option.some_bind] at hinner
                rw [except_toOption_ok _ _
                  (set_tile_ok gstA.map xy2.1 xy2.2 TileType.Ladder (by omega)
                    (by omega))] at hinner
                simp only [Option.some_bind] at hinner
                have hW2dB : regLookup (regUpdate (regUpdate ((regUpdate (w.tile_maps ++
                    [((pos, z), empty_tile_map)]) (pos, z) gstA.map) ++
                    [((pos, (z + 1) % 2), empty_tile_map)]) (pos, (z + 1) % 2)
                    gstB.map) (pos, z)
                    { data := fun r c => if r = TILE_MAP_ROWS - 1 - xy2.2 ∧ c = xy2.1
                        then TileType.Ladder else gstA.map.data r c }) (pos, (z + 1) % 2)
                    = some gstB.map := by
                  rw [regLookup_update_ne _ _ _ _ hozzk]
                  exact hW2bB
                rw [get_tilemap_at_hit _ _ _ _ _ gstB.map hW2dB] at hinner
                simp only [Option.some.injEq, Prod.mk.injEq] at hinner
                obtain ⟨hw3, hrng3⟩ := hinner
                subst hw3
                subst hrng3
                rw [hW2dB] at h
                simp only [Option.some_bind] at h
                rw [except_toOption_ok _ _
                  (set_tile_ok gstB.map xy.1 xy.2 TileType.Ladder (by omega)
                    (by omega))] at h
                simp only [Option.some_bind] at h
                have hW4z : regLookup (regUpdate (regUpdate (regUpdate ((regUpdate
                    (w.tile_maps ++ [((pos, z), empty_tile_map)]) (pos, z) gstA.map) ++
                    [((pos, (z + 1) % 2), empty_tile_map)]) (pos, (z + 1) % 2)
                    gstB.map) (pos, z)
                    { data := fun r c => if r = TILE_MAP_ROWS - 1 - xy2.2 ∧ c = xy2.1
                        then TileType.Ladder else gstA.map.data r c }) (pos, (z + 1) % 2)
                    { data := fun r c => if r = TILE_MAP_ROWS - 1 - xy.2 ∧ c = xy.1
                        then TileType.Ladder else gstB.map.data r c }) (pos, z)
                    = some { data := fun r c => if r = TILE_MAP_ROWS - 1 - xy2.2 ∧
                        c = xy2.1 then TileType.Ladder else gstA.map.data r c } := by
                  rw [regLookup_update_ne _ _ _ _ hozzk']
                  exact regLookup_update_self _ _ _ _ hW2bA
                have hW4oz : regLookup (regUpdate (regUpdate (regUpdate ((regUpdate
                    (w.tile_maps ++ [((pos, z), empty_tile_map)]) (pos, z) gstA.map) ++
                    [((pos, (z + 1) % 2), empty_tile_map)]) (pos, (z + 1) % 2)
                    gstB.map) (pos, z)
                    { data := fun r c => if r = TILE_MAP_ROWS - 1 - xy2.2 ∧ c = xy2.1
                        then TileType.Ladder else gstA.map.data r c }) (pos, (z + 1) % 2)
                    { data := fun r c => if r = TILE_MAP_ROWS - 1 - xy.2 ∧ c = xy.1
                        then TileType.Ladder else gstB.map.data r c }) (pos, (z + 1) % 2)
                    = some { data := fun r c => if r = TILE_MAP_ROWS - 1 - xy.2 ∧
                        c = xy.1 then TileType.Ladder else gstB.map.data r c } :=
                  regLookup_update_self _ _ _ _ hW2dB
                rw [get_tilemap_at_hit _ _ _ _ _ _ hW4z] at h
                simp only [Option.some.injEq, Prod.mk.injEq] at h
                obtain ⟨hw, hrng⟩ := h
                subst hw
                refine pair_world_invariants w _ pos z hz _ _ xy2 xy hW4z hW4oz
                  (fun k hk1 hk2 => by
                    rw [regLookup_update_ne _ _ _ _ hk2,
                      regLookup_update_ne _ _ _ _ hk1, hw2b, if_neg hk2, if_neg hk1])
                  ?_ ?_ hsym htwo
                · intro a b ha hb
                  rw [ladder_at_set_ladder gstA.map xy2.1 xy2.2 (by omega) (by omega)
                    a b ha hb, hiffA' a b ha hb]
                · intro a b ha hb
                  rw [ladder_at_set_ladder gstB.map xy.1 xy.2 (by omega) (by omega)
                    a b ha hb, hiffB' a b ha hb]
                  constructor
                  · intro hh
                    rcases hh with hh | hh
                    · exact Or.inr hh
                    · exact Or.inl hh
                  · intro hh
                    rcases hh with hh | hh
                    · exact Or.inr hh
                    · exact Or.inl hh

lemma run_calls_preserves (calls : List TileMapKey) (w : World) (rng : Rng)
    (w' : World) (rng' : Rng)
    (hz : ∀ c ∈ calls, c.2 ≤ 1)
    (hsym : LadderSym w) (htwo : AtMostTwo w)
    (hrun : run_calls calls w rng = some (w', rng')) :
    LadderSym w' ∧ AtMostTwo w' := by
  induction calls generalizing w rng with
  | nil =>
    simp only [run_calls, List.foldlM_nil] at hrun
    obtain ⟨hw, hrng⟩ := Prod.mk.injEq _ _ _ _ ▸ Option.some.inj hrun
    subst hw
    exact ⟨hsym, htwo⟩
  | cons c rest ih =>
    rw [run_calls, List.foldlM_cons] at hrun
    cases hstep : get_tilemap_at 2 w rng c.1 c.2 with
    | none =>
      rw [hstep] at hrun
      exact Option.noConfusion hrun
    | some wr1 =>
      rw [hstep] at hrun
      obtain ⟨w1, rng1⟩ := wr1
      obtain ⟨hsym1, htwo1⟩ := get_tilemap_preserves 2 w rng c.1 c.2 w1 rng1
        (hz c (List.mem_cons_self _ _)) hsym htwo hstep
      exact ih w1 rng1 (fun c' hc' => hz c' (List.mem_cons_of_mem _ hc')) hsym1 htwo1 hrun

lemma LadderSym_empty : LadderSym { tile_maps := [] } := by
  intro pos x y hx hy
  constructor
  · intro hL
    obtain ⟨m, hm, _⟩ := hL
    exact Option.noConfusion hm
  · intro hL
    obtain ⟨m, hm, _⟩ := hL
    exact Option.noConfusion hm

lemma AtMostTwo_empty : AtMostTwo { tile_maps := [] } := by
  intro k m hk
  exact Option.noConfusion hk

/-- C5: after any successful sequence of `get_tilemap_at` calls on floors
0/1, starting from the freshly initialized (empty) registry, a Ladder at
`(x, y)` in the map registered for a chunk on floor 0 exists exactly when the
map registered for the same chunk on floor 1 exists and has a Ladder at the
same `(x, y)` — whichever floor was generated first. -/
theorem ladder_pairing_symmetric (calls : List TileMapKey) (rng0 : Rng)
    (w' : World) (rng' : Rng)
    (hz : ∀ c ∈ calls, c.2 ≤ 1)
    (hrun : run_calls calls { tile_maps := [] } rng0 = some (w', rng')) :
    ∀ pos x y, x < TILE_MAP_COLUMNS → y < TILE_MAP_ROWS →
      (LadderW w' pos 0 x y ↔ LadderW w' pos 1 x y) :=
  (run_calls_preserves calls { tile_maps := [] } rng0 w' rng' hz
    LadderSym_empty AtMostTwo_empty hrun).1

/-- Witness for C5 with the empty call sequence. -/
theorem ladder_pairing_symmetric_witness :
    (∀ c ∈ ([] : List TileMapKey), c.2 ≤ 1) ∧
      run_calls [] { tile_maps := [] } { xstate := 64, ystate := 2 }
        = some ({ tile_maps := [] }, { xstate := 64, ystate := 2 }) ∧
      (∀ pos x y, x < TILE_MAP_COLUMNS → y < TILE_MAP_ROWS →
        (LadderW { tile_maps := [] } pos 0 x y ↔ LadderW { tile_maps := [] } pos 1 x y)) :=
  ⟨fun c hc => absurd hc (List.not_mem_nil c), rfl,
    ladder_pairing_symmetric [] { xstate := 64, ystate := 2 } { tile_maps := [] }
      { xstate := 64, ystate := 2 } (fun c hc => absurd hc (List.not_mem_nil c)) rfl⟩

/-- C9 counterexample: with rng state `(64, 2)`, the floor-0 generation of
chunk (0, 0) places its own ladder at `(1, 1)`; the recursively generated
floor-1 map places a ladder at `(9, 6)` and force-sets `(9, 6)` on the
floor-0 map as well, so the registered floor-0 map holds Ladder cells at two
distinct coordinates — not "at most one Ladder cell". -/
theorem init_tile_map_two_ladders :
    (two_ladder_demo.map fun m => (decide (ladder_at m 1 1), decide (ladder_at m 9 6)))
        = some (true, true)
      ∧ ((1, 1) : Nat × Nat) ≠ (9, 6) := by
  constructor
  · decide
  · decide

/-- C9 (amended): a map's own generation scan makes Ladder at most the single
recorded first-hit cell (`other_floor`); after any successful sequence of
`get_tilemap_at` calls on floors 0/1 from the empty registry, a registered
map can additionally hold one ladder force-set by the paired floor's
generation, so every registered map has at most two Ladder cells. -/
theorem ladder_bound_amended (calls : List TileMapKey) (rng0 : Rng)
    (w' : World) (rng' : Rng)
    (hz : ∀ c ∈ calls, c.2 ≤ 1)
    (hrun : run_calls calls { tile_maps := [] } rng0 = some (w', rng')) :
    (∀ k m, regLookup w'.tile_maps k = some m →
      ∃ p q, ∀ x y, x < TILE_MAP_COLUMNS → y < TILE_MAP_ROWS →
        ladder_at m x y → (x, y) = p ∨ (x, y) = q)
    ∧ ∀ rng, ∃ gst, gen_map rng = some gst
        ∧ ∀ x y, x < TILE_MAP_COLUMNS → y < TILE_MAP_ROWS →
            (ladder_at gst.map x y ↔ gst.other_floor = some (x, y)) := by
  refine ⟨(run_calls_preserves calls { tile_maps := [] } rng0 w' rng' hz
    LadderSym_empty AtMostTwo_empty hrun).2, ?_⟩
  intro rng
  obtain ⟨gst, hgen, hiff, _, _⟩ := gen_map_spec rng
  exact ⟨gst, hgen, hiff⟩

/-- Witness for the amended C9 with the empty call sequence. -/
theorem ladder_bound_amended_witness :
    (∀ c ∈ ([] : List TileMapKey), c.2 ≤ 1) ∧
      run_calls [] { tile_maps := [] } { xstate := 3, ystate := 5 }
        = some ({ tile_maps := [] }, { xstate := 3, ystate := 5 }) ∧
      ((∀ k m, regLookup ({ tile_maps := [] } : World).tile_maps k = some m →
        ∃ p q, ∀ x y, x < TILE_MAP_COLUMNS → y < TILE_MAP_ROWS →
          ladder_at m x y → (x, y) = p ∨ (x, y) = q)
      ∧ ∀ rng, ∃ gst, gen_map rng = some gst
          ∧ ∀ x y, x < TILE_MAP_COLUMNS → y < TILE_MAP_ROWS →
              (ladder_at gst.map x y ↔ gst.other_floor = some (x, y))) :=
  ⟨fun c hc => absurd hc (List.not_mem_nil c), rfl,
    ladder_bound_amended [] { xstate := 3, ystate := 5 } { tile_maps := [] }
      { xstate := 3, ystate := 5 } (fun c hc => absurd hc (List.not_mem_nil c)) rfl⟩

/-- C6: with the Grind reaction constant 1, a reflection along a unit axis
vector zeroes the velocity component along that axis and leaves the
perpendicular component unchanged. -/
theorem collision_reflection_grind (v r : Vec2)
    (hr : r = { x := 1, y := 0 } ∨ r = { x := -1, y := 0 } ∨ r = { x := 0, y := 1 }
      ∨ r = { x := 0, y := -1 }) :
    (collision_response v r 1).dot r = 0
    ∧ (collision_response v r 1).dot { x := -r.y, y := r.x }
        = v.dot { x := -r.y, y := r.x } := by
  rcases hr with hr | hr | hr | hr <;> subst hr <;>
    constructor <;>
    simp [collision_response, Vec2.dot, Vec2.sub, Vec2.smul]

/-- Witness for C6 at `v = (3, 4)`, `r = (1, 0)`. -/
theorem collision_reflection_grind_witness :
    (({ x := 1, y := 0 } : Vec2) = { x := 1, y := 0 } ∨
      ({ x := 1, y := 0 } : Vec2) = { x := -1, y := 0 } ∨
      ({ x := 1, y := 0 } : Vec2) = { x := 0, y := 1 } ∨
      ({ x := 1, y := 0 } : Vec2) = { x := 0, y := -1 })
    ∧ (collision_response { x := 3, y := 4 } { x := 1, y := 0 } 1).dot
        { x := 1, y := 0 } = 0
    ∧ (collision_response { x := 3, y := 4 } { x := 1, y := 0 } 1).dot
        { x := -(0 : ℚ), y := 1 } = Vec2.dot { x := 3, y := 4 } { x := -(0 : ℚ), y := 1 } :=
  ⟨Or.inl rfl, collision_reflection_grind { x := 3, y := 4 } { x := 1, y := 0 }
    (Or.inl rfl)⟩

/-- C1: whenever the destination tile of the canonicalized tentative position
resolves to Wall, `move_entity` leaves the committed position exactly as it
was (all four components); only the velocity (and the registry/rng, through
the lookup) changes. -/
theorem wall_blocks_position (sqrtFn : ℚ → ℚ) (delta_t : ℚ) (world : World) (rng : Rng)
    (entity : Entity) (accel : Vec2) (np : WorldPosition)
    (htent : tentative_position sqrtFn delta_t entity accel = some np)
    (hdest : (dest_tile world rng np).map (fun t => t.2.2) = some TileType.Wall) :
    ∃ v' w1 rng1, move_entity sqrtFn delta_t world rng entity accel
      = some ({ position := entity.position, velocity := v' }, w1, rng1) := by
  cases hd : dest_tile world rng np with
  | none =>
    rw [hd] at hdest
    exact Option.noConfusion hdest
  | some wrt =>
    rw [hd] at hdest
    simp only [Option.map_some', Option.some.injEq] at hdest
    refine ⟨collision_response (new_velocity sqrtFn delta_t entity accel)
      (reflection_of entity.position (if wrt.2.2 = TileType.Ladder ∧
        (np.tile_map_x ≠ entity.position.tile_map_x
          ∨ np.tile_map_y ≠ entity.position.tile_map_y)
        then { tile_map_x := np.tile_map_x, tile_map_y := np.tile_map_y,
               z := (np.z + 1) % 2, tile_rel := np.tile_rel }
        else np)) 1, wrt.1, wrt.2.1, ?_⟩
    rw [move_entity, htent]
    simp only [Option.some_bind]
    rw [hd]
    simp only [Option.some_bind]
    rw [if_pos hdest]

/-- Witness for C1: a resting entity (zero velocity and acceleration) at tile
offset (0, 1) of chunk (0, 0), an x-border cell outside the door rows.  The
tentative position canonicalizes back to the same position, the destination
tile generates as Wall (for the concrete rng seed `(1, 1)`), and `move_entity`
keeps the position, changing only the velocity. -/
theorem wall_blocks_position_witness :
    tentative_position (fun q => q) (1/30)
        { position := { tile_map_x := 0, tile_map_y := 1, z := 0,
                        tile_rel := { x := 0, y := 0 } },
          velocity := { x := 0, y := 0 } } { x := 0, y := 0 }
      = some { tile_map_x := 0, tile_map_y := 1, z := 0, tile_rel := { x := 0, y := 0 } }
    ∧ (dest_tile { tile_maps := [] } { xstate := 1, ystate := 1 }
          { tile_map_x := 0, tile_map_y := 1, z := 0,
            tile_rel := { x := 0, y := 0 } }).map (fun t => t.2.2)
        = some TileType.Wall
    ∧ ∃ v' w1 rng1, move_entity (fun q => q) (1/30) { tile_maps := [] }
        { xstate := 1, ystate := 1 }
        { position := { tile_map_x := 0, tile_map_y := 1, z := 0,
                        tile_rel := { x := 0, y := 0 } },
          velocity := { x := 0, y := 0 } } { x := 0, y := 0 }
      = some ({ position := { tile_map_x := 0, tile_map_y := 1, z := 0,
                              tile_rel := { x := 0, y := 0 } }, velocity := v' }, w1, rng1) := by
  have hrz : rust_round (0 : ℚ) = 0 := rust_round_zero 0 (by norm_num) (by norm_num)
  have hax : adjust MAX_NUM_CHUNKS TILE_MAP_COLUMNS 0 0 = some 0 := by decide
  have hay : adjust MAX_NUM_CHUNKS TILE_MAP_ROWS 1 0 = some 1 := by decide
  have hcan : canonicalize { tile_map_x := 0, tile_map_y := 1, z := 0,
                             tile_rel := { x := 0, y := 0 } }
      = some { tile_map_x := 0, tile_map_y := 1, z := 0, tile_rel := { x := 0, y := 0 } } := by
    simp only [canonicalize]
    rw [hrz, hax, hay]
    norm_num
  have htent : tentative_position (fun q => q) (1/30)
      { position := { tile_map_x := 0, tile_map_y := 1, z := 0,
                      tile_rel := { x := 0, y := 0 } },
        velocity := { x := 0, y := 0 } } { x := 0, y := 0 }
      = some { tile_map_x := 0, tile_map_y := 1, z := 0,
               tile_rel := { x := 0, y := 0 } } := by
    simp only [tentative_position, integrate_accel, Vec2.add, Vec2.smul, Vec2.neg,
      Vec2.len_squared, Vec2.dot]
    norm_num
    exact hcan
  have hdest : (dest_tile { tile_maps := [] } { xstate := 1, ystate := 1 }
      { tile_map_x := 0, tile_map_y := 1, z := 0,
        tile_rel := { x := 0, y := 0 } }).map (fun t => t.2.2)
      = some TileType.Wall := by decide
  exact ⟨htent, hdest, wall_blocks_position (fun q => q) (1/30) { tile_maps := [] }
    { xstate := 1, ystate := 1 } _ _ _ htent hdest⟩

end HandmadeFerris
